import Mathlib

/-!
Verification of the grove-tools numeric text codec and template engine
(`include/gr/detail/toy_charconv.hh` and `include/gr/format.hh`).

The C++ code is shallowly embedded: machine integers become `Nat`/`Int` with
explicit wrap-arounds where the source can overflow, character spans become
`List Char` with explicit cursor indices, and each C++ function is translated
into a Lean function of the same name.  All definitions are executable.
-/

namespace GroveTools

/-- Error kind returned by the decoders; models the subset of `std::errc`
that `toy_charconv.hh` produces (`std::errc{}`, `invalid_argument`,
`result_out_of_range`). -/
inductive Errc where
  | none
  | invalid_argument
  | result_out_of_range
  deriving DecidableEq, Repr

/-- Model of `toy::detail::char_to_digit` (table method, `CHAR_TO_DIGIT_METHOD == 2`):
the 256-entry table maps letters and digits of the base-36 alphabet to their
values and every other byte to `-1`. -/
def char_to_digit (c : Char) : Int :=
  if 48 ≤ c.toNat ∧ c.toNat ≤ 57 then (c.toNat : Int) - 48
  else if 65 ≤ c.toNat ∧ c.toNat ≤ 90 then (c.toNat : Int) - 55
  else if 97 ≤ c.toNat ∧ c.toNat ≤ 122 then (c.toNat : Int) - 87
  else -1

/-- The decoders read `char_to_digit` into an `unsigned` variable
(`unsigned digit = char_to_digit(*first)`), so `-1` becomes `2^32 - 1`. -/
def charDigitU (c : Char) : Nat :=
  ((char_to_digit c) % 4294967296).toNat

/-- Model of `toy::detail::POW10_TABLE` (powers of ten up to `10^18`). -/
def POW10_TABLE : List Nat :=
  [1, 10, 100, 1000, 10000, 100000, 1000000, 10000000, 100000000, 1000000000,
   10000000000, 100000000000, 1000000000000, 10000000000000, 100000000000000,
   1000000000000000, 10000000000000000, 100000000000000000, 1000000000000000000]

/-- Model of `to_chars_helper::get_pow10` (`POW10_TABLE[x]`; indices beyond the
table are undefined behaviour in the source and default to `0` here). -/
def get_pow10 (x : Nat) : Nat := POW10_TABLE.getD x 0

/-- Model of `to_chars_helper::digits_lower`. -/
def digits_lower : List Char := "0123456789abcdefghijklmnopqrstuvwxyz".toList

/-- Model of `to_chars_helper::digits_upper`. -/
def digits_upper : List Char := "0123456789ABCDEFGHIJKLMNOPQRSTUVWXYZ".toList

/-- Model of `to_chars_helper::two_digit_table` (the 200-character table of
two-digit decimal pairs "00" "01" ... "99"). -/
def two_digit_table : List Char :=
  "00010203040506070809101112131415161718192021222324252627282930313233343536373839404142434445464748495051525354555657585960616263646566676869707172737475767778798081828384858687888990919293949596979899".toList

/-- Model of `toy::detail::smart_mod_u` for `Nat` operands (the power-of-two
branch uses the bit mask `n & (m - 1)`, the rest divide). -/
def smart_mod_u (n m : Nat) : Nat :=
  if m &&& (m - 1) = 0 then n &&& (m - 1)
  else if m = 10 then n % 10
  else if m = 5 then n % 5
  else if m = 3 then n % 3
  else n % m

/-- Model of `toy::detail::smart_div_u` for `Nat` operands (shifts for the
power-of-two divisors, division otherwise). -/
def smart_div_u (n d : Nat) : Nat :=
  if d = 10 then n / 10
  else if d = 2 then n >>> 1
  else if d = 4 then n >>> 2
  else if d = 8 then n >>> 3
  else if d = 16 then n >>> 4
  else if d = 32 then n >>> 5
  else if d = 5 then n / 5
  else if d = 3 then n / 3
  else n / d

/-! ## The string-to-integer digit loops

Each loop walks a `List Char`, returning the unconsumed suffix, the
accumulated unsigned magnitude, and the error code.  `maxv` is the maximum of
the unsigned working type (`UnsignedType(-1)`). -/

/-- First loop of `toy::detail::stoi_pow2_base_u`: shift-accumulate digits,
with the two overflow checks performed before each update. -/
def stoi_pow2_first (shift base maxv : Nat) :
    List Char → Nat → List Char × Nat × Errc
  | [], result => ([], result, Errc.none)
  | c :: rest, result =>
    let digit := charDigitU c
    if base ≤ digit then (c :: rest, result, Errc.none)
    else if maxv >>> shift < result then (c :: rest, result, Errc.result_out_of_range)
    else
      let new_result := result <<< shift
      if maxv - digit < new_result then (c :: rest, result, Errc.result_out_of_range)
      else stoi_pow2_first shift base maxv rest (new_result + digit)

/-- The trailing loop shared by all three digit loops: consume every remaining
character whose digit value is below `bound` (`10` in the base-10 and
power-of-two loops, `base` in the generic loop). -/
def skipDigits (bound : Nat) : List Char → List Char
  | [] => []
  | c :: rest => if bound ≤ charDigitU c then c :: rest else skipDigits bound rest

/-- Model of `toy::detail::stoi_pow2_base_u`; the shift is
`IsOctal ? 3 : (base == 2 ? 1 : 4)` exactly as in the source. -/
def stoi_pow2_base_u (isOctal : Bool) (maxv : Nat) (cs : List Char) (base : Nat) :
    List Char × Nat × Errc :=
  let shift := if isOctal then 3 else if base = 2 then 1 else 4
  let r := stoi_pow2_first shift base maxv cs 0
  (skipDigits 10 r.1, r.2)

/-- First loop of `toy::detail::stoi_base10_u`: multiply-accumulate decimal
digits with `max_safe = UnsignedType(-1) / 10`. -/
def stoi_base10_first (maxv : Nat) : List Char → Nat → List Char × Nat × Errc
  | [], result => ([], result, Errc.none)
  | c :: rest, result =>
    let digit := charDigitU c
    if 10 ≤ digit then (c :: rest, result, Errc.none)
    else if maxv / 10 < result then (c :: rest, result, Errc.result_out_of_range)
    else
      let new_result := result * 10
      if maxv - digit < new_result then (c :: rest, result, Errc.result_out_of_range)
      else stoi_base10_first maxv rest (new_result + digit)

/-- Model of `toy::detail::stoi_base10_u`. -/
def stoi_base10_u (maxv : Nat) (cs : List Char) : List Char × Nat × Errc :=
  let r := stoi_base10_first maxv cs 0
  (skipDigits 10 r.1, r.2)

/-- First loop of `toy::detail::stoi_alnum_u` (generic base, multiply
accumulate with `max_safe = UnsignedType(-1) / base`). -/
def stoi_alnum_first (base maxv : Nat) : List Char → Nat → List Char × Nat × Errc
  | [], result => ([], result, Errc.none)
  | c :: rest, result =>
    let digit := charDigitU c
    if base ≤ digit then (c :: rest, result, Errc.none)
    else if maxv / base < result then (c :: rest, result, Errc.result_out_of_range)
    else
      let new_result := result * base
      if maxv - digit < new_result then (c :: rest, result, Errc.result_out_of_range)
      else stoi_alnum_first base maxv rest (new_result + digit)

/-- Model of `toy::detail::stoi_alnum_u`. -/
def stoi_alnum_u (maxv : Nat) (cs : List Char) (base : Nat) :
    List Char × Nat × Errc :=
  let r := stoi_alnum_first base maxv cs 0
  (skipDigits base r.1, r.2)

/-- Model of `toy::detail::get_sign_for_sstov`: consume one optional sign
character and return the numeric sign.  (On an empty span the source would
read past the buffer; the model returns the no-sign result.) -/
def get_sign_for_sstov : List Char → Int × List Char
  | c :: rest =>
    if c = '-' then (-1, rest)
    else if c = '+' then (1, rest)
    else (1, c :: rest)
  | [] => (1, [])

/-- Interpretation of a `w`-bit unsigned value as the signed type of the same
width (the `integer_type(pre_result)` conversion, two's complement). -/
def toSigned (w : Nat) (n : Nat) : Int :=
  if n < 2 ^ (w - 1) then (n : Int) else (n : Int) - 2 ^ w

/-- Wrap an integer into the `w`-bit signed range (models signed overflow of
negation on the implementation's two's-complement targets). -/
def wrapSigned (w : Nat) (x : Int) : Int :=
  (x + 2 ^ (w - 1)) % 2 ^ w - 2 ^ (w - 1)

/-- Model of `toy::detail::check_integer_overflow` for a `w`-bit destination
type.  The output value is assigned before the range check, exactly as in the
source, so an out-of-range result still carries the wrapped value. -/
def check_integer_overflow (signed : Bool) (w : Nat) (str_sign : Int) (pre_result : Nat) :
    Int × Errc :=
  if signed then
    if str_sign = -1 then
      let value_out := wrapSigned w (-(toSigned w pre_result))
      if 2 ^ (w - 1) < pre_result then (value_out, Errc.result_out_of_range)
      else (value_out, Errc.none)
    else
      let value_out := toSigned w pre_result
      if 2 ^ (w - 1) - 1 < pre_result then (value_out, Errc.result_out_of_range)
      else (value_out, Errc.none)
  else
    if str_sign = -1 then ((pre_result : Int), Errc.invalid_argument)
    else ((pre_result : Int), Errc.none)

/-- The value stored by `value = integer_type(pre_result)` on the
loop-error path of `sstoi`. -/
def castVal (signed : Bool) (w : Nat) (pre_result : Nat) : Int :=
  if signed then toSigned w pre_result else (pre_result : Nat)

/-- Model of `gr::toy::sstoi` for a `w`-bit destination (`signed` selects the
signed variant).  Returns `(value, end_position, error)` where `end_position`
counts consumed characters from the start of the span. -/
def sstoi (signed : Bool) (w : Nat) (cs : List Char) (base : Int) :
    Int × Nat × Errc :=
  if cs.isEmpty ∨ base < 2 ∨ 36 < base then (0, 0, Errc.invalid_argument)
  else
    let maxv := 2 ^ w - 1
    let sr := get_sign_for_sstov cs
    let pre_sign := sr.1
    let rest := sr.2
    let signConsumed := cs.length - rest.length
    let b := base.toNat
    let st :=
      if b = 10 then stoi_base10_u maxv rest
      else if b &&& (b - 1) = 0 then
        if b = 2 then stoi_pow2_base_u false maxv rest b
        else if b ≤ 8 then stoi_pow2_base_u true maxv rest b
        else stoi_pow2_base_u false maxv rest b
      else stoi_alnum_u maxv rest b
    let pos := signConsumed + (rest.length - st.1.length)
    if st.2.2 = Errc.none then
      let vr := check_integer_overflow signed w pre_sign st.2.1
      (vr.1, pos, vr.2)
    else
      (castVal signed w st.2.1, pos, st.2.2)

/-! ## The integer-to-string converter (`to_chars_helper::from_integer`)

The converter writes digits back-to-front through a raw pointer.  The model
tracks the cursor as an `Int` offset from the buffer start (the source
performs no bounds check in the digit loop, so the cursor can go negative,
modelling the out-of-bounds writes) and accumulates the characters of the
span `[ptr_, end_)` as a list. -/

/-- Character of a digit in the chosen alphabet
(`digits_upper` when `uppercase`, else `digits_lower`). -/
def digitAt (uppercase : Bool) (d : Nat) : Char :=
  (if uppercase then digits_upper else digits_lower).getD d 'x'

/-- Lowercase digit character (`digits_lower[d]`). -/
def digitChar (d : Nat) : Char := digits_lower.getD d 'x'

/-- The two characters `two_digit_table + (r << 1)` of the two-digit pair
for `r` (`pair[0]`, `pair[1]`). -/
def pairOf (r : Nat) : List Char :=
  [two_digit_table.getD (2 * r) 'x', two_digit_table.getD (2 * r + 1) 'x']

/-- Final step of `_convert_integer_u_base10`: at most two remaining digits. -/
def convC (v : Nat) : List Char :=
  if 10 ≤ v then pairOf v else [digits_lower.getD v 'x']

/-- Second loop of `_convert_integer_u_base10` (`while (value >= 100)` peels
two digits per iteration), written with an explicit bound on the iteration
count so that it is structural; `convB` supplies the bound `v`, which exceeds
the iteration count since every iteration shrinks `value` by a factor of
100. -/
def convB_go : Nat → Nat → List Char
  | 0, v => convC v
  | bound + 1, v =>
    if 100 ≤ v then convB_go bound (v / 100) ++ pairOf (v % 100) else convC v

/-- Second and third loops of `_convert_integer_u_base10`. -/
def convB (v : Nat) : List Char := convB_go v v

/-- First loop of `to_chars_helper::_convert_integer_u_base10`
(`while (value >= 10000)` peels four decimal digits per iteration with two
table lookups); same explicit iteration bound as `convB_go`.  Writes run
back-to-front, so each iteration's four characters end up after the
characters of the remaining quotient. -/
def convA_go : Nat → Nat → List Char
  | 0, v => convB v
  | bound + 1, v =>
    if 10000 ≤ v then
      convA_go bound (v / 10000) ++ pairOf (v % 10000 / 100) ++ pairOf (v % 10000 % 100)
    else convB v

/-- Model of `to_chars_helper::_convert_integer_u_base10`. -/
def convA (v : Nat) : List Char := convA_go v v

/-- Generic digit loop of `to_chars_helper::_convert_integer_u`
(`while (value > 0) { digit = smart_mod_u(value, base); ...; value = smart_div_u(value, base); }`),
with the same explicit iteration bound; `smart_div_u` shrinks a positive
value whenever `2 ≤ base` (`smart_div_u_lt` below), so the bound `v` supplied
by `convG` is never exhausted for the bases the converter accepts. -/
def convG_go (base : Nat) (uppercase : Bool) : Nat → Nat → List Char
  | 0, _ => []
  | bound + 1, v =>
    if 0 < v then
      convG_go base uppercase bound (smart_div_u v base) ++
        [digitAt uppercase (smart_mod_u v base)]
    else []

/-- Generic digit loop of `_convert_integer_u` at bound `v`. -/
def convG (base : Nat) (uppercase : Bool) (v : Nat) : List Char :=
  convG_go base uppercase v v

/-- The optimized division always shrinks a positive operand when the divisor
is at least two (so the iteration bound of `convG_go` is sufficient). -/
theorem smart_div_u_lt (n d : Nat) (hn : 0 < n) (hd : 2 ≤ d) :
    smart_div_u n d < n := by
  have hdiv : ∀ k, 2 ≤ k → n / k < n := fun k hk => Nat.div_lt_self hn hk
  have hshift : ∀ s, 0 < s → n >>> s < n := by
    intro s hs
    rw [Nat.shiftRight_eq_div_pow]
    exact Nat.div_lt_self hn (Nat.one_lt_two_pow_iff.mpr (by omega))
  unfold smart_div_u
  repeat' split
  all_goals first
    | exact hdiv _ (by omega)
    | exact hshift _ (by omega)

/-- Body of `to_chars_helper::_convert_integer_u`: the dedicated base-10 fast
path, or the generic alphabet loop. -/
def conv_integer_chars (base : Nat) (uppercase : Bool) (v : Nat) : List Char :=
  if base = 10 then convA v else convG base uppercase v

/-- Model of `to_chars_helper::_prepare_integer_format_type`: the base prefix
text and its length (`0b`/`0B`, `0`, `0x`/`0X`, or none). -/
def prepare_integer_format_type (base : Nat) (uppercase : Bool) :
    Option (List Char) × Nat :=
  if base = 2 then (some (if uppercase then ['0', 'B'] else ['0', 'b']), 2)
  else if base = 8 then (some ['0'], 1)
  else if base = 16 then (some (if uppercase then ['0', 'X'] else ['0', 'x']), 2)
  else (none, 0)

/-- The backward prefix/sign writing loop of `from_integer` for a non-zero
value: each character is written only after checking `ptr_ > buffer_`
(`cursor > 0`); on failure the whole conversion returns the null span.
`rcs` is the prefix reversed, since the loop writes its last character
first. -/
def writeBackRev (rcs : List Char) (cursor : Int) (acc : List Char) :
    Option (Int × List Char) :=
  match rcs with
  | [] => some (cursor, acc)
  | c :: rest =>
    if 0 < cursor then writeBackRev rest (cursor - 1) (c :: acc) else none

/-- The magnitude that the digit loop receives: a negative value is negated
(`value = -value`, wrapping at `w` bits for the signed minimum on the
two's-complement targets the source runs on) and cast to the unsigned type. -/
def magOf (signed : Bool) (w : Nat) (v : Int) : Nat :=
  if signed ∧ v < 0 then ((-v) % 2 ^ w).toNat else (v % 2 ^ w).toNat

/-- Model of `to_chars_helper::from_integer` for a `w`-bit integer type and a
destination buffer of `n` bytes.  Returns `none` for the null span, otherwise
the characters of the returned span `[ptr_, end_)`.  Note that the digit loop
itself performs no bounds check: a span longer than `n` can be returned (its
first characters then sit before the buffer in the source). -/
def from_integer (signed : Bool) (w : Nat) (n : Nat) (v : Int) (base : Nat)
    (uppercase alternate : Bool) : Option (List Char) :=
  if base < 2 ∨ 36 < base then none
  else
    let pp := prepare_integer_format_type base uppercase
    if v = 0 then
      -- zero writes the single digit '0', then the prefix ahead of it
      if (n : Int) ≤ 0 then none
      else if alternate ∧ pp.1.isSome then
        if (n : Int) - 1 < (pp.2 : Int) then none
        else some (pp.1.getD [] ++ ['0'])
      else some ['0']
    else
      let negative := signed ∧ v < 0
      let mag := magOf signed w v
      let ds := conv_integer_chars base uppercase mag
      let cursor : Int := (n : Int) - ds.length
      let afterPfx :=
        if alternate ∧ pp.1.isSome then writeBackRev (pp.1.getD []).reverse cursor ds
        else some (cursor, ds)
      match afterPfx with
      | none => none
      | some (cur2, acc2) =>
        if negative then
          if 0 < cur2 then some ('-' :: acc2) else none
        else some acc2

/-! ## Claim theorems over the integer codec (evaluation facts) -/

/-- C1: the integer round-trip fails on the power-of-two bases 4 and 32.
Encoding 4 in base 4 yields "10" (the encoder divides correctly), but `sstoi`
routes base 4 through the octal shift (`base <= 8` selects `IsOctal`, shift 3)
and decodes "10" as 8 with no error; likewise base 32 is decoded with shift 4,
so "10" (the encoding of 32) comes back as 16.  The claimed identity
`decode(encode(v, b), b) = (v, none)` therefore fails at `v = 4, b = 4`. -/
theorem claim_C1_base4_roundtrip_fails :
    from_integer true 32 64 4 4 false false = some ['1', '0'] ∧
    sstoi true 32 ['1', '0'] 4 = (8, 2, Errc.none) ∧
    from_integer true 32 64 32 32 false false = some ['1', '0'] ∧
    sstoi true 32 ['1', '0'] 32 = (16, 2, Errc.none) := by
  refine ⟨by decide, by decide, by decide, by decide⟩

/-- C6: decoding "  -123" in base 10 does not fail.  The leading space is not
a sign character, the digit loop consumes nothing, and `sstoi` has no
no-digits check: it returns value 0, end position at the start of the span,
and error kind `none` — not the error the spec expects. -/
theorem claim_C6_leading_space_not_error :
    sstoi true 32 ("  -123".toList) 10 = (0, 0, Errc.none) := by decide

/-- C8: on an empty span or a base outside `[2, 36]`, `sstoi` sets the output
value to 0 and returns `invalid_argument` with the end position at the start
of the span. -/
theorem claim_C8_invalid_inputs (signed : Bool) (w : Nat) (cs : List Char)
    (base : Int) (h : cs = [] ∨ base < 2 ∨ 36 < base) :
    sstoi signed w cs base = (0, 0, Errc.invalid_argument) := by
  unfold sstoi
  rw [if_pos]
  rcases h with h | h | h
  · exact Or.inl (by simp [h])
  · exact Or.inr (Or.inl h)
  · exact Or.inr (Or.inr h)

/-- Witness for C8 at two concrete invalid inputs. -/
theorem claim_C8_witness :
    sstoi true 32 [] 10 = (0, 0, Errc.invalid_argument) ∧
    sstoi false 64 ['5'] 99 = (0, 0, Errc.invalid_argument) :=
  ⟨claim_C8_invalid_inputs true 32 [] 10 (Or.inl rfl),
   claim_C8_invalid_inputs false 64 ['5'] 99 (Or.inr (Or.inr (by norm_num)))⟩

/-- C4 counterexample: decoding "fff" in base 16 into an 8-bit type overflows
at the third digit, and the trailing consumption loop of the power-of-two
path only skips characters whose digit value is below 10 — so the returned
end position is 2 although the character at index 2 is a valid base-16 digit.
The claim that the end position is advanced past every remaining valid digit
of the base is therefore false at this input. -/
theorem claim_C4_counterexample :
    sstoi false 8 ['f', 'f', 'f'] 16 = (255, 2, Errc.result_out_of_range) ∧
    charDigitU 'f' < 16 ∧ (2 : Nat) < 3 := by
  refine ⟨by decide, by decide, by decide⟩

/-- C2 counterexample: encoding 123 in base 10 into a 1-byte buffer returns a
non-null span of length 3 — the digit loop performs no bounds check, so the
claim that every too-small buffer yields a null span is false at this input
(in the source the two leading digits are written before the buffer start). -/
theorem claim_C2_counterexample :
    from_integer true 32 1 123 10 false false = some ['1', '2', '3'] ∧
    (1 : Nat) < 3 := by
  refine ⟨by decide, by decide⟩

/-! ## Decimal digit lists

Scaffolding relating the table-driven converter loops to a structural
most-significant-first digit list, and the digit loops of the decoder to the
value of that list.  Everything the claims use is stated over the converter
models themselves; these definitions only serve the proofs. -/

/-- Most-significant-first digits of `m` in base `b` (with the same explicit
iteration bound style as the converter loops; `toDigitsM` supplies bound `m`).
A value below the base — including 0 — is the single digit `[m]`. -/
def toDigitsM_go (b : Nat) : Nat → Nat → List Nat
  | 0, m => [m]
  | bound + 1, m =>
    if 2 ≤ b ∧ b ≤ m then toDigitsM_go b bound (m / b) ++ [m % b] else [m]

/-- Most-significant-first digits of `m` in base `b`. -/
def toDigitsM (b m : Nat) : List Nat := toDigitsM_go b m m

/-- The iteration bound of `toDigitsM_go` is irrelevant once it covers the
value. -/
theorem toDigitsM_go_fuel (b : Nat) :
    ∀ m bound k, m ≤ bound → m ≤ k →
      toDigitsM_go b bound m = toDigitsM_go b k m := by
  intro m
  induction m using Nat.strong_induction_on with
  | _ m ih =>
    intro bound k hb hk
    match bound, k with
    | 0, 0 => rfl
    | 0, k + 1 =>
      obtain rfl : m = 0 := by omega
      simp only [toDigitsM_go]
      rw [if_neg (by omega)]
    | bound + 1, 0 =>
      obtain rfl : m = 0 := by omega
      simp only [toDigitsM_go]
      rw [if_neg (by omega)]
    | bound + 1, k + 1 =>
      by_cases h : 2 ≤ b ∧ b ≤ m
      · have hm : 0 < m := by omega
        have hdiv : m / b < m := Nat.div_lt_self hm h.1
        simp only [toDigitsM_go, if_pos h]
        rw [ih (m / b) hdiv bound k (by omega) (by omega)]
      · simp only [toDigitsM_go, if_neg h]

/-- Unfolding: a value below the base (or a degenerate base) is one digit. -/
theorem toDigitsM_small (b m : Nat) (h : m < b ∨ b < 2) : toDigitsM b m = [m] := by
  have hneg : ¬(2 ≤ b ∧ b ≤ m) := by rcases h with h | h <;> omega
  unfold toDigitsM
  match m with
  | 0 => rfl
  | m + 1 =>
    simp only [toDigitsM_go]
    rw [if_neg hneg]

/-- Unfolding: one division step of the digit recursion. -/
theorem toDigitsM_step (b m : Nat) (hb : 2 ≤ b) (hm : b ≤ m) :
    toDigitsM b m = toDigitsM b (m / b) ++ [m % b] := by
  obtain ⟨n, rfl⟩ : ∃ n, m = n + 1 := ⟨m - 1, by omega⟩
  have hdiv : (n + 1) / b ≤ n :=
    Nat.le_of_lt_succ (Nat.div_lt_self (by omega) hb)
  show toDigitsM_go b (n + 1) (n + 1) = _
  simp only [toDigitsM_go]
  rw [if_pos ⟨hb, hm⟩,
    toDigitsM_go_fuel b ((n + 1) / b) n ((n + 1) / b) hdiv (le_refl _)]
  rfl

/-- Every digit produced for base `b ≥ 2` is below `b`. -/
theorem toDigitsM_lt (b : Nat) (hb : 2 ≤ b) :
    ∀ m, ∀ d ∈ toDigitsM b m, d < b := by
  intro m
  induction m using Nat.strong_induction_on with
  | _ m ih =>
    by_cases h : b ≤ m
    · rw [toDigitsM_step b m hb h]
      intro d hd
      rcases List.mem_append.mp hd with hd | hd
      · exact ih (m / b) (Nat.div_lt_self (by omega) hb) d hd
      · simp only [List.mem_singleton] at hd
        subst hd
        exact Nat.mod_lt _ (by omega)
    · rw [toDigitsM_small b m (Or.inl (by omega))]
      intro d hd
      simp only [List.mem_singleton] at hd
      omega

/-- The digit list is never empty. -/
theorem toDigitsM_ne_nil (b m : Nat) : toDigitsM b m ≠ [] := by
  by_cases hb : 2 ≤ b
  · by_cases h : b ≤ m
    · rw [toDigitsM_step b m hb h]; simp
    · rw [toDigitsM_small b m (Or.inl (by omega))]; simp
  · rw [toDigitsM_small b m (Or.inr (by omega))]; simp

/-- Accumulating value of a digit list, most significant first, starting
from `acc` (the shape of the decoder's multiply-accumulate loop). -/
def foldDigits (b acc : Nat) (ds : List Nat) : Nat :=
  ds.foldl (fun a d => a * b + d) acc

theorem foldDigits_nil (b acc : Nat) : foldDigits b acc [] = acc := rfl

theorem foldDigits_cons (b acc d : Nat) (ds : List Nat) :
    foldDigits b acc (d :: ds) = foldDigits b (acc * b + d) ds := rfl

theorem foldDigits_append (b acc : Nat) (ds es : List Nat) :
    foldDigits b acc (ds ++ es) = foldDigits b (foldDigits b acc ds) es := by
  simp [foldDigits]

/-- The accumulator never decreases along the fold (for a base `≥ 1`). -/
theorem foldDigits_ge (b : Nat) (hb : 1 ≤ b) (acc : Nat) (ds : List Nat) :
    acc ≤ foldDigits b acc ds := by
  induction ds generalizing acc with
  | nil => exact le_refl _
  | cons d ds ih =>
    rw [foldDigits_cons]
    calc acc ≤ acc * b + d := by nlinarith
    _ ≤ foldDigits b (acc * b + d) ds := ih _

/-- Folding the digits of `m` onto `acc` yields `acc · b^len + m`. -/
theorem foldDigits_toDigitsM (b : Nat) (hb : 2 ≤ b) :
    ∀ m acc, foldDigits b acc (toDigitsM b m) =
      acc * b ^ (toDigitsM b m).length + m := by
  intro m
  induction m using Nat.strong_induction_on with
  | _ m ih =>
    intro acc
    by_cases h : b ≤ m
    · rw [toDigitsM_step b m hb h, foldDigits_append,
        ih (m / b) (Nat.div_lt_self (by omega) hb)]
      simp only [foldDigits_cons, foldDigits_nil, List.length_append,
        List.length_singleton]
      rw [pow_succ]
      have := Nat.div_add_mod m b
      ring_nf
      nlinarith [Nat.div_add_mod m b]
    · rw [toDigitsM_small b m (Or.inl (by omega))]
      simp [foldDigits]

/-- The digit value of the digit list of `m` is `m`. -/
theorem foldDigits_toDigitsM_zero (b m : Nat) (hb : 2 ≤ b) :
    foldDigits b 0 (toDigitsM b m) = m := by
  rw [foldDigits_toDigitsM b hb m 0]; ring

/-- A value below `b^k` has at most `k` digits (for `k ≥ 1`). -/
theorem toDigitsM_length_le (b : Nat) (hb : 2 ≤ b) :
    ∀ m k, 1 ≤ k → m < b ^ k → (toDigitsM b m).length ≤ k := by
  intro m
  induction m using Nat.strong_induction_on with
  | _ m ih =>
    intro k hk hm
    by_cases h : b ≤ m
    · have hk2 : 2 ≤ k := by
        rcases Nat.lt_or_ge k 2 with hlt | hge
        · interval_cases k <;> simp_all <;> omega
        · exact hge
      rw [toDigitsM_step b m hb h]
      simp only [List.length_append, List.length_singleton]
      have : m / b < b ^ (k - 1) := by
        apply Nat.div_lt_of_lt_mul
        calc m < b ^ k := hm
        _ = b * b ^ (k - 1) := by
            rw [← pow_succ']
            congr 1
            omega
      have hrec := ih (m / b) (Nat.div_lt_self (by omega) hb) (k - 1) (by omega) this
      omega
    · rw [toDigitsM_small b m (Or.inl (by omega))]
      simpa using hk

/-! ## Agreement of the table-driven base-10 converter with the digit list -/

/-- The two-digit table holds exactly the decimal pair of its index. -/
theorem pairOf_eq : ∀ r, r < 100 → pairOf r = [digitChar (r / 10), digitChar (r % 10)] := by
  decide

/-- Digit characters are never sign characters. -/
theorem digitChar_ne_sign : ∀ d, d < 36 → digitChar d ≠ '-' ∧ digitChar d ≠ '+' := by
  decide

/-- Reading a digit character back through the decoder's table returns the
digit. -/
theorem charDigitU_digitChar : ∀ d, d < 36 → charDigitU (digitChar d) = d := by
  decide

/-- The final one-or-two-digit step agrees with the digit list. -/
theorem convC_eq : ∀ v, v < 100 → convC v = (toDigitsM 10 v).map digitChar := by
  decide

/-- Fuel congruence for the two-digit peeling loop. -/
theorem convB_go_fuel :
    ∀ m bound k, m ≤ bound → m ≤ k → convB_go bound m = convB_go k m := by
  intro m
  induction m using Nat.strong_induction_on with
  | _ m ih =>
    intro bound k hb hk
    match bound, k with
    | 0, 0 => rfl
    | 0, k + 1 =>
      obtain rfl : m = 0 := by omega
      simp only [convB_go]
      rw [if_neg (by omega)]
    | bound + 1, 0 =>
      obtain rfl : m = 0 := by omega
      simp only [convB_go]
      rw [if_neg (by omega)]
    | bound + 1, k + 1 =>
      by_cases h : 100 ≤ m
      · have hdiv : m / 100 < m := Nat.div_lt_self (by omega) (by omega)
        simp only [convB_go, if_pos h]
        rw [ih (m / 100) hdiv bound k (by omega) (by omega)]
      · simp only [convB_go, if_neg h]

theorem convB_small (v : Nat) (h : v < 100) : convB v = convC v := by
  unfold convB
  match v with
  | 0 => rfl
  | v + 1 =>
    simp only [convB_go]
    rw [if_neg (by omega)]

theorem convB_step (v : Nat) (h : 100 ≤ v) :
    convB v = convB (v / 100) ++ pairOf (v % 100) := by
  obtain ⟨n, rfl⟩ : ∃ n, v = n + 1 := ⟨v - 1, by omega⟩
  have hdiv : (n + 1) / 100 ≤ n :=
    Nat.le_of_lt_succ (Nat.div_lt_self (by omega) (by omega))
  show convB_go (n + 1) (n + 1) = _
  simp only [convB_go]
  rw [if_pos h,
    convB_go_fuel ((n + 1) / 100) n ((n + 1) / 100) hdiv (le_refl _)]
  rfl

/-- The two-digit peeling loop produces the decimal digit characters. -/
theorem convB_eq : ∀ v, convB v = (toDigitsM 10 v).map digitChar := by
  intro v
  induction v using Nat.strong_induction_on with
  | _ v ih =>
    by_cases h : 100 ≤ v
    · rw [convB_step v h, ih (v / 100) (Nat.div_lt_self (by omega) (by omega)),
        pairOf_eq (v % 100) (Nat.mod_lt _ (by omega))]
      have h10 : (10 : Nat) ≤ v := by omega
      have h10' : (10 : Nat) ≤ v / 10 := by
        have := Nat.div_le_div_right (c := 10) h
        omega
      rw [toDigitsM_step 10 v (by omega) h10,
        toDigitsM_step 10 (v / 10) (by omega) h10']
      have e1 : v / 10 / 10 = v / 100 := by omega
      have e2 : v % 100 / 10 = v / 10 % 10 := by omega
      have e3 : v % 100 % 10 = v % 10 := by omega
      simp [e1, e2, e3]
    · rw [convB_small v (by omega), convC_eq v (by omega)]

/-- Fuel congruence for the four-digit peeling loop. -/
theorem convA_go_fuel :
    ∀ m bound k, m ≤ bound → m ≤ k → convA_go bound m = convA_go k m := by
  intro m
  induction m using Nat.strong_induction_on with
  | _ m ih =>
    intro bound k hb hk
    match bound, k with
    | 0, 0 => rfl
    | 0, k + 1 =>
      obtain rfl : m = 0 := by omega
      simp only [convA_go]
      rw [if_neg (by omega)]
    | bound + 1, 0 =>
      obtain rfl : m = 0 := by omega
      simp only [convA_go]
      rw [if_neg (by omega)]
    | bound + 1, k + 1 =>
      by_cases h : 10000 ≤ m
      · have hdiv : m / 10000 < m := Nat.div_lt_self (by omega) (by omega)
        simp only [convA_go, if_pos h]
        rw [ih (m / 10000) hdiv bound k (by omega) (by omega)]
      · simp only [convA_go, if_neg h]

theorem convA_small (v : Nat) (h : v < 10000) : convA v = convB v := by
  unfold convA
  match v with
  | 0 => rfl
  | v + 1 =>
    simp only [convA_go]
    rw [if_neg (by omega)]

theorem convA_step (v : Nat) (h : 10000 ≤ v) :
    convA v = convA (v / 10000) ++ pairOf (v % 10000 / 100) ++ pairOf (v % 10000 % 100) := by
  obtain ⟨n, rfl⟩ : ∃ n, v = n + 1 := ⟨v - 1, by omega⟩
  have hdiv : (n + 1) / 10000 ≤ n :=
    Nat.le_of_lt_succ (Nat.div_lt_self (by omega) (by omega))
  show convA_go (n + 1) (n + 1) = _
  simp only [convA_go]
  rw [if_pos h,
    convA_go_fuel ((n + 1) / 10000) n ((n + 1) / 10000) hdiv (le_refl _)]
  rfl

/-- The base-10 fast path of `_convert_integer_u` produces exactly the
decimal digit characters of the value, most significant first. -/
theorem convA_eq : ∀ v, convA v = (toDigitsM 10 v).map digitChar := by
  intro v
  induction v using Nat.strong_induction_on with
  | _ v ih =>
    by_cases h : 10000 ≤ v
    · rw [convA_step v h, ih (v / 10000) (Nat.div_lt_self (by omega) (by omega))]
      rw [pairOf_eq (v % 10000 / 100) (by
          have := Nat.mod_lt v (show 0 < 10000 by omega)
          omega),
        pairOf_eq (v % 10000 % 100) (Nat.mod_lt _ (by omega))]
      have hd1 : (10 : Nat) ≤ v := by omega
      have hd2 : (10 : Nat) ≤ v / 10 := by
        have := Nat.div_le_div_right (c := 10) h; omega
      have hd3 : (10 : Nat) ≤ v / 10 / 10 := by
        have := Nat.div_le_div_right (c := 100) h
        rw [Nat.div_div_eq_div_mul]
        omega
      have hd4 : (10 : Nat) ≤ v / 10 / 10 / 10 := by
        have := Nat.div_le_div_right (c := 1000) h
        rw [Nat.div_div_eq_div_mul, Nat.div_div_eq_div_mul]
        omega
      rw [toDigitsM_step 10 v (by omega) hd1,
        toDigitsM_step 10 (v / 10) (by omega) hd2,
        toDigitsM_step 10 (v / 10 / 10) (by omega) hd3,
        toDigitsM_step 10 (v / 10 / 10 / 10) (by omega) hd4]
      have e0 : v / 10 / 10 / 10 / 10 = v / 10000 := by omega
      have e1 : v % 10000 / 100 / 10 = v / 10 / 10 / 10 % 10 := by omega
      have e2 : v % 10000 / 100 % 10 = v / 10 / 10 % 10 := by omega
      have e3 : v % 10000 % 100 / 10 = v / 10 % 10 := by omega
      have e4 : v % 10000 % 100 % 10 = v % 10 := by omega
      simp [e0, e1, e2, e3, e4]
    · rw [convA_small v (by omega), convB_eq v]

/-! ## Behaviour of the decoder digit loops -/

/-- Feeding the decimal digit characters of a digit list into the base-10
accumulation loop folds them onto the accumulator, provided the folded value
fits the working maximum (so no overflow check fires). -/
theorem stoi_base10_first_append (maxv : Nat) (ds : List Nat) :
    ∀ (rest : List Char) (acc : Nat), (∀ d ∈ ds, d < 10) →
      foldDigits 10 acc ds ≤ maxv →
      stoi_base10_first maxv (ds.map digitChar ++ rest) acc =
        stoi_base10_first maxv rest (foldDigits 10 acc ds) := by
  induction ds with
  | nil => intro rest acc _ _; rfl
  | cons d ds ih =>
    intro rest acc hd hval
    have hd10 : d < 10 := hd d (by simp)
    have hcd : charDigitU (digitChar d) = d := charDigitU_digitChar d (by omega)
    rw [foldDigits_cons] at hval ⊢
    have hge : acc * 10 + d ≤ foldDigits 10 (acc * 10 + d) ds :=
      foldDigits_ge 10 (by omega) _ ds
    simp only [List.map_cons, List.cons_append, stoi_base10_first, hcd]
    rw [if_neg (by omega), if_neg (by
        simp only [not_lt]
        rw [Nat.le_div_iff_mul_le (by omega)]
        omega),
      if_neg (by omega)]
    exact ih rest (acc * 10 + d) (fun x hx => hd x (by simp [hx])) hval

/-- Decoding the decimal digit characters of `m ≤ maxv` consumes them all and
accumulates exactly `m` with no error. -/
theorem stoi_base10_u_digits (maxv m : Nat) (hm : m ≤ maxv) :
    stoi_base10_u maxv ((toDigitsM 10 m).map digitChar) = ([], m, Errc.none) := by
  unfold stoi_base10_u
  have h := stoi_base10_first_append maxv (toDigitsM 10 m) [] 0
    (toDigitsM_lt 10 (by omega) m)
    (by rw [foldDigits_toDigitsM_zero 10 m (by omega)]; exact hm)
  rw [List.append_nil] at h
  rw [h, foldDigits_toDigitsM_zero 10 m (by omega)]
  rfl

/-- The trailing skip loop stops at the end or at a character whose digit
value reaches the bound. -/
theorem skipDigits_head (bound : Nat) :
    ∀ (cs : List Char) (c : Char), (skipDigits bound cs).head? = some c →
      bound ≤ charDigitU c := by
  intro cs
  induction cs with
  | nil => intro c h; simp [skipDigits] at h
  | cons x rest ih =>
    intro c h
    by_cases hx : bound ≤ charDigitU x
    · simp only [skipDigits, if_pos hx, List.head?_cons, Option.some.injEq] at h
      subst h
      exact hx
    · simp only [skipDigits, if_neg hx] at h
      exact ih c h

/-- The skip loop returns a suffix of its input. -/
theorem skipDigits_suffix (bound : Nat) :
    ∀ cs : List Char, (skipDigits bound cs) <:+ cs := by
  intro cs
  induction cs with
  | nil => simp [skipDigits]
  | cons x rest ih =>
    by_cases hx : bound ≤ charDigitU x
    · simp [skipDigits, if_pos hx]
    · simp only [skipDigits, if_neg hx]
      exact ih.trans (List.suffix_cons x rest)

/-- The base-10 accumulation loop returns a suffix of its input. -/
theorem stoi_base10_first_suffix (maxv : Nat) :
    ∀ (cs : List Char) (acc : Nat), (stoi_base10_first maxv cs acc).1 <:+ cs := by
  intro cs
  induction cs with
  | nil => intro acc; simp [stoi_base10_first]
  | cons c rest ih =>
    intro acc
    simp only [stoi_base10_first]
    repeat' split
    any_goals simp
    exact (ih _).trans (List.suffix_cons c rest)

/-- The generic-base accumulation loop returns a suffix of its input. -/
theorem stoi_alnum_first_suffix (base maxv : Nat) :
    ∀ (cs : List Char) (acc : Nat), (stoi_alnum_first base maxv cs acc).1 <:+ cs := by
  intro cs
  induction cs with
  | nil => intro acc; simp [stoi_alnum_first]
  | cons c rest ih =>
    intro acc
    simp only [stoi_alnum_first]
    repeat' split
    any_goals simp
    exact (ih _).trans (List.suffix_cons c rest)

/-- The power-of-two accumulation loop returns a suffix of its input. -/
theorem stoi_pow2_first_suffix (shift base maxv : Nat) :
    ∀ (cs : List Char) (acc : Nat), (stoi_pow2_first shift base maxv cs acc).1 <:+ cs := by
  intro cs
  induction cs with
  | nil => intro acc; simp [stoi_pow2_first]
  | cons c rest ih =>
    intro acc
    simp only [stoi_pow2_first]
    repeat' split
    any_goals simp
    exact (ih _).trans (List.suffix_cons c rest)

/-- The base-10 accumulated magnitude never exceeds the working maximum: the
overflow checks fire before any wrapping update.  (The bound `9 ≤ maxv` holds
for every unsigned working type; a single digit must fit the maximum.) -/
theorem stoi_base10_first_le (maxv : Nat) (hm : 9 ≤ maxv) :
    ∀ (cs : List Char) (acc : Nat), acc ≤ maxv →
      (stoi_base10_first maxv cs acc).2.1 ≤ maxv := by
  intro cs
  induction cs with
  | nil => intro acc h; exact h
  | cons c rest ih =>
    intro acc h
    simp only [stoi_base10_first]
    split
    · exact h
    · split
      · exact h
      · split
        · exact h
        · rename_i hd hsafe hnew
          exact ih _ (by omega)

/-- The generic-base accumulated magnitude never exceeds the working
maximum (for digits that fit the maximum, as on every working type). -/
theorem stoi_alnum_first_le (base maxv : Nat) (hm : base ≤ maxv + 1) :
    ∀ (cs : List Char) (acc : Nat), acc ≤ maxv →
      (stoi_alnum_first base maxv cs acc).2.1 ≤ maxv := by
  intro cs
  induction cs with
  | nil => intro acc h; exact h
  | cons c rest ih =>
    intro acc h
    simp only [stoi_alnum_first]
    split
    · exact h
    · split
      · exact h
      · split
        · exact h
        · rename_i hd hsafe hnew
          exact ih _ (by omega)

/-- The power-of-two accumulated magnitude never exceeds the working
maximum (for digits that fit the maximum, as on every working type). -/
theorem stoi_pow2_first_le (shift base maxv : Nat) (hm : base ≤ maxv + 1) :
    ∀ (cs : List Char) (acc : Nat), acc ≤ maxv →
      (stoi_pow2_first shift base maxv cs acc).2.1 ≤ maxv := by
  intro cs
  induction cs with
  | nil => intro acc h; exact h
  | cons c rest ih =>
    intro acc h
    simp only [stoi_pow2_first]
    split
    · exact h
    · split
      · exact h
      · split
        · exact h
        · rename_i hd hsafe hnew
          exact ih _ (by omega)

/-- Reading an element of a list at the position just before a suffix yields
the head of the suffix. -/
theorem get_of_suffix (cs rem : List Char) (h : rem <:+ cs)
    (hlt : cs.length - rem.length < cs.length) :
    rem.head? = cs[cs.length - rem.length]? := by
  obtain ⟨pre, rfl⟩ := h
  have hlen : pre.length = (pre ++ rem).length - rem.length := by
    simp
  rw [← hlen]
  match rem with
  | [] => simp at hlt
  | r :: rem =>
    rw [List.getElem?_append_right (le_refl pre.length)]
    simp

/-- The consumed sign is a suffix relation: the span left by
`get_sign_for_sstov` is a suffix of the input. -/
theorem get_sign_for_sstov_suffix (cs : List Char) :
    (get_sign_for_sstov cs).2 <:+ cs := by
  cases cs with
  | nil => simp [get_sign_for_sstov]
  | cons c rest =>
    simp only [get_sign_for_sstov]
    split
    · exact (List.suffix_cons c rest)
    · split
      · exact (List.suffix_cons c rest)
      · exact List.suffix_refl _

/-- After `stoi_base10_u`, the remaining span is a suffix whose head (if any)
is not a decimal digit. -/
theorem stoi_base10_u_rem (maxv : Nat) (cs : List Char) :
    (stoi_base10_u maxv cs).1 <:+ cs ∧
    (∀ c, (stoi_base10_u maxv cs).1.head? = some c → 10 ≤ charDigitU c) := by
  constructor
  · exact (skipDigits_suffix 10 _).trans (stoi_base10_first_suffix maxv cs 0)
  · intro c hc
    exact skipDigits_head 10 _ c hc

/-- The end position returned by `sstoi` with base 10 is the length of the
consumed part: the whole span minus the remainder left by `stoi_base10_u`. -/
theorem sstoi_pos_eq (signed : Bool) (w : Nat) (cs : List Char) (hcs : cs ≠ []) :
    (sstoi signed w cs 10).2.1 =
      cs.length - (stoi_base10_u (2 ^ w - 1) (get_sign_for_sstov cs).2).1.length := by
  have hguard : ¬(cs.isEmpty ∨ (10 : Int) < 2 ∨ (36 : Int) < 10) := by
    simp [hcs]
  have hrl := (get_sign_for_sstov_suffix cs).length_le
  have hml :=
    ((stoi_base10_u_rem (2 ^ w - 1) (get_sign_for_sstov cs).2).1).length_le
  unfold sstoi
  rw [if_neg hguard]
  have h10 : (10 : Int).toNat = 10 := rfl
  simp only [h10]
  norm_num
  by_cases hcond :
      (stoi_base10_u (2 ^ w - 1) (get_sign_for_sstov cs).2).2.2 = Errc.none
  · rw [if_pos hcond]
    simp only
    omega
  · rw [if_neg hcond]
    simp only
    omega

/-- At the `sstoi` level with base 10, the character at the returned end
position — when the position is inside the span — is not a decimal digit:
the consumed length spans the whole numeral, also on overflow. -/
theorem sstoi_base10_stop (signed : Bool) (w : Nat) (cs : List Char) :
    ∀ c, cs[(sstoi signed w cs 10).2.1]? = some c → 10 ≤ charDigitU c := by
  intro c hc
  rcases eq_or_ne cs [] with rfl | hne
  · simp [sstoi] at hc
  · rw [sstoi_pos_eq signed w cs hne] at hc
    set rest := (get_sign_for_sstov cs).2 with hrest
    set rem := (stoi_base10_u (2 ^ w - 1) rest).1 with hrem
    have hsuf : rem <:+ cs :=
      ((stoi_base10_u_rem _ rest).1).trans (get_sign_for_sstov_suffix cs)
    have hlt : cs.length - rem.length < cs.length := by
      by_contra hge
      rw [List.getElem?_eq_none (by omega)] at hc
      exact Option.noConfusion hc
    rw [← get_of_suffix cs rem hsuf hlt] at hc
    exact (stoi_base10_u_rem _ rest).2 c hc

/-- C4 (amended): on overflow every digit loop stops updating the magnitude —
the accumulated value never exceeds the working maximum — and the returned
end position is past the numeral as the *trailing skip loop* defines it: for
base 10 and for the generic (non-power-of-two) bases, the character at the
stop position is not a valid digit of the base, so the consumed length spans
the whole malformed numeral; the power-of-two paths, however, only skip
characters with digit value below 10, so their stop character is merely
guaranteed not to be a *decimal* digit — for bases 16 and 32 a remaining
letter digit of the base halts consumption (see the counterexample).  At the
`sstoi` level with base 10, the character at the returned end position, when
inside the span, is never a decimal digit. -/
theorem claim_C4_amended (maxv base : Nat) (cs : List Char)
    (hb2 : 2 ≤ base) (hb36 : base ≤ 36) (hm : 35 ≤ maxv) :
    ((stoi_base10_u maxv cs).2.1 ≤ maxv ∧
      (stoi_alnum_u maxv cs base).2.1 ≤ maxv ∧
      ∀ io, (stoi_pow2_base_u io maxv cs base).2.1 ≤ maxv) ∧
    (∀ c, (stoi_base10_u maxv cs).1.head? = some c → 10 ≤ charDigitU c) ∧
    (∀ c, (stoi_alnum_u maxv cs base).1.head? = some c → base ≤ charDigitU c) ∧
    (∀ io c, (stoi_pow2_base_u io maxv cs base).1.head? = some c →
      10 ≤ charDigitU c) ∧
    (∀ (signed : Bool) (w : Nat) (c : Char),
      cs[(sstoi signed w cs 10).2.1]? = some c → 10 ≤ charDigitU c) := by
  refine ⟨⟨?_, ?_, ?_⟩, ?_, ?_, ?_, ?_⟩
  · exact stoi_base10_first_le maxv (by omega) cs 0 (by omega)
  · exact stoi_alnum_first_le base maxv (by omega) cs 0 (by omega)
  · intro io
    exact stoi_pow2_first_le _ base maxv (by omega) cs 0 (by omega)
  · intro c hc
    exact skipDigits_head 10 _ c hc
  · intro c hc
    exact skipDigits_head base _ c hc
  · intro io c hc
    exact skipDigits_head 10 _ c hc
  · exact fun signed w => sstoi_base10_stop signed w cs

/-- Witness for C4 at concrete inputs: a decimal overflow ("99999" into the
8-bit working maximum) and a base-16 overflow. -/
theorem claim_C4_witness :
    ((stoi_base10_u 255 ("99999".toList)).2.1 ≤ 255 ∧
      (stoi_alnum_u 255 ("99999".toList) 10).2.1 ≤ 255 ∧
      ∀ io, (stoi_pow2_base_u io 255 ("99999".toList) 10).2.1 ≤ 255) ∧
    (∀ io c, (stoi_pow2_base_u io 255 ("fff".toList) 16).1.head? = some c →
      10 ≤ charDigitU c) := by
  refine ⟨(claim_C4_amended 255 10 (("99999".toList)) (by norm_num) (by norm_num)
      (by norm_num)).1, ?_⟩
  exact (claim_C4_amended 255 16 (("fff".toList)) (by norm_num) (by norm_num)
      (by norm_num)).2.2.2.1

/-! ## Characterization of the encoder result (for C2) -/

/-- Length of the full encoded result — digits as the converter itself
produces them, plus the base prefix when requested and the sign for a
negative value.  This is the "could the buffer hold the result" quantity of
the claim. -/
def requiredLen (signed : Bool) (w : Nat) (v : Int) (base : Nat)
    (uppercase alternate : Bool) : Nat :=
  let pp := prepare_integer_format_type base uppercase
  let plen := if alternate ∧ pp.1.isSome then pp.2 else 0
  if v = 0 then 1 + plen
  else
    (conv_integer_chars base uppercase (magOf signed w v)).length + plen +
      (if signed ∧ v < 0 then 1 else 0)

/-- The text of a successful encoding: optional sign, optional base prefix,
digits (a single '0' for the zero value). -/
def expectedText (signed : Bool) (w : Nat) (v : Int) (base : Nat)
    (uppercase alternate : Bool) : List Char :=
  let pp := prepare_integer_format_type base uppercase
  let pfx := if alternate ∧ pp.1.isSome then pp.1.getD [] else []
  if v = 0 then pfx ++ ['0']
  else
    (if signed ∧ v < 0 then ['-'] else []) ++ pfx ++
      conv_integer_chars base uppercase (magOf signed w v)

/-- A successful backward write consumes exactly the prefix length of cursor
room and prepends the prefix. -/
theorem writeBackRev_eq_some (rcs : List Char) :
    ∀ (cursor : Int) (acc : List Char) (p : Int × List Char),
      writeBackRev rcs cursor acc = some p →
      p = (cursor - rcs.length, rcs.reverse ++ acc) := by
  induction rcs with
  | nil =>
    intro cursor acc p hp
    simp only [writeBackRev, Option.some.injEq] at hp
    simp [← hp]
  | cons c rest ih =>
    intro cursor acc p hp
    simp only [writeBackRev] at hp
    split at hp
    · have := ih (cursor - 1) (c :: acc) p hp
      rw [this, Prod.mk.injEq]
      constructor
      · simp only [List.length_cons]
        push_cast
        ring
      · simp
    · exact Option.noConfusion hp

/-- A failing backward write means the cursor had less room than the prefix
length. -/
theorem writeBackRev_eq_none (rcs : List Char) :
    ∀ (cursor : Int) (acc : List Char),
      writeBackRev rcs cursor acc = none → cursor < rcs.length := by
  induction rcs with
  | nil =>
    intro cursor acc hp
    simp [writeBackRev] at hp
  | cons c rest ih =>
    intro cursor acc hp
    simp only [writeBackRev] at hp
    split at hp
    · have := ih (cursor - 1) (c :: acc) hp
      simp only [List.length_cons]
      push_cast
      omega
    · rename_i hcur
      simp only [List.length_cons]
      push_cast
      omega

/-- With enough cursor room the backward write succeeds. -/
theorem writeBackRev_succeeds (rcs : List Char) :
    ∀ (cursor : Int) (acc : List Char), (rcs.length : Int) ≤ cursor →
      writeBackRev rcs cursor acc = some (cursor - rcs.length, rcs.reverse ++ acc) := by
  induction rcs with
  | nil =>
    intro cursor acc h
    simp [writeBackRev]
  | cons c rest ih =>
    intro cursor acc h
    simp only [List.length_cons] at h
    have hc : (0 : Int) < cursor := by push_cast at h ⊢; omega
    simp only [writeBackRev, if_pos hc]
    rw [ih (cursor - 1) (c :: acc) (by push_cast at h ⊢; omega)]
    rw [Option.some.injEq, Prod.mk.injEq]
    constructor
    · simp only [List.length_cons]
      push_cast
      ring
    · simp

/-- The stored prefix length field matches the prefix text. -/
theorem prepare_len (base : Nat) (uppercase : Bool) :
    ((prepare_integer_format_type base uppercase).1.getD []).length =
      (if (prepare_integer_format_type base uppercase).1.isSome then
        (prepare_integer_format_type base uppercase).2 else 0) := by
  unfold prepare_integer_format_type
  repeat' split
  all_goals simp_all

/-- Null-span characterization of `from_integer`: a bad base always fails, a
failure implies a bad base or a buffer smaller than the full result, and a
buffer that holds the full result succeeds with exactly that text. -/
theorem from_integer_spec (signed : Bool) (w : Nat) (n : Nat) (v : Int)
    (base : Nat) (uppercase alternate : Bool) :
    ((base < 2 ∨ 36 < base) →
      from_integer signed w n v base uppercase alternate = none) ∧
    (from_integer signed w n v base uppercase alternate = none →
      base < 2 ∨ 36 < base ∨ n < requiredLen signed w v base uppercase alternate) ∧
    (2 ≤ base → base ≤ 36 →
      requiredLen signed w v base uppercase alternate ≤ n →
      from_integer signed w n v base uppercase alternate =
        some (expectedText signed w v base uppercase alternate)) := by
  set pp := prepare_integer_format_type base uppercase with hpp
  set plen := if alternate ∧ pp.1.isSome then pp.2 else 0 with hplen
  set mag := magOf signed w v with hmag
  set ds := conv_integer_chars base uppercase mag with hds
  set neg := signed ∧ v < 0 with hneg
  have hplen_len : (if alternate ∧ pp.1.isSome then
      ((pp.1.getD []).reverse.length : Int) else 0) = (plen : Int) := by
    rw [hplen]
    split
    · rename_i h
      rw [List.length_reverse, prepare_len base uppercase, if_pos h.2]
    · rfl
  refine ⟨?_, ?_, ?_⟩
  · intro h
    unfold from_integer
    rw [if_pos h]
  · intro hnone
    by_cases hb : base < 2 ∨ 36 < base
    · rcases hb with hb | hb
      · exact Or.inl hb
      · exact Or.inr (Or.inl hb)
    · right; right
      unfold from_integer at hnone
      rw [if_neg hb] at hnone
      by_cases hv : v = 0
      · rw [if_pos hv] at hnone
        unfold requiredLen
        rw [if_pos hv]
        by_cases hn0 : (n : Int) ≤ 0
        · omega
        · rw [if_neg hn0] at hnone
          by_cases halt : alternate ∧ pp.1.isSome
          · rw [if_pos halt] at hnone
            by_cases hroom : (n : Int) - 1 < (pp.2 : Int)
            · simp only [← hpp]
              rw [if_pos halt]
              omega
            · rw [if_neg hroom] at hnone
              exact Option.noConfusion hnone
          · rw [if_neg halt] at hnone
            exact Option.noConfusion hnone
      · rw [if_neg hv] at hnone
        simp only [← hpp, ← hmag, ← hds] at hnone
        unfold requiredLen
        rw [if_neg hv]
        simp only [← hpp, ← hmag, ← hds, ← hplen, ← hneg]
        by_cases halt : alternate ∧ pp.1.isSome
        · rw [if_pos halt] at hnone
          cases hw : writeBackRev (pp.1.getD []).reverse ((n : Int) - ds.length) ds with
          | none =>
            rw [hw] at hnone
            have := writeBackRev_eq_none _ _ _ hw
            have hpl : ((pp.1.getD []).reverse.length : Int) = (plen : Int) := by
              rw [← hplen_len, if_pos halt]
            rw [hpl] at this
            have : n < ds.length + plen := by omega
            split <;> omega
          | some p =>
            rw [hw] at hnone
            have hp := writeBackRev_eq_some _ _ _ _ hw
            subst hp
            simp only at hnone
            split at hnone
            · split at hnone
              · exact Option.noConfusion hnone
              · rename_i hn2 hcur
                have hpl : ((pp.1.getD []).reverse.length : Int) = (plen : Int) := by
                  rw [← hplen_len, if_pos halt]
                rw [hpl] at hcur
                rw [if_pos hn2]
                omega
            · exact Option.noConfusion hnone
        · rw [if_neg halt] at hnone
          simp only at hnone
          split at hnone
          · split at hnone
            · exact Option.noConfusion hnone
            · rename_i hn2 hcur
              rw [if_pos hn2, hplen, if_neg halt]
              omega
          · exact Option.noConfusion hnone
  · intro hb2 hb36 hroom
    unfold from_integer
    rw [if_neg (by omega)]
    unfold requiredLen at hroom
    unfold expectedText
    simp only [← hpp, ← hmag, ← hds, ← hplen, ← hneg] at hroom ⊢
    by_cases hv : v = 0
    · rw [if_pos hv] at hroom ⊢
      rw [if_pos hv]
      rw [if_neg (show ¬((n : Int) ≤ 0) by omega)]
      by_cases halt : alternate ∧ pp.1.isSome
      · rw [if_pos halt, if_pos halt]
        rw [if_neg (show ¬((n : Int) - 1 < (pp.2 : Int)) by
          rw [hplen, if_pos halt] at hroom
          push_cast
          omega)]
      · simp only [if_neg halt]
        simp
    · rw [if_neg hv] at hroom ⊢
      rw [if_neg hv]
      by_cases halt : alternate ∧ pp.1.isSome
      · rw [if_pos halt, if_pos halt]
        have hpl : ((pp.1.getD []).reverse.length : Int) = (plen : Int) := by
          rw [← hplen_len, if_pos halt]
        rw [writeBackRev_succeeds _ _ _ (by
          rw [hpl, hplen, if_pos halt] at *
          split at hroom <;> push_cast <;> omega)]
        simp only [List.reverse_reverse]
        split
        · rename_i hn2
          rw [if_pos (show (0 : Int) <
              (n : Int) - (ds.length : Int) - ((pp.1.getD []).reverse.length : Int) by
            rw [hpl, hplen, if_pos halt] at *
            rw [if_pos hn2] at hroom
            push_cast
            omega)]
          simp
        · simp
      · rw [if_neg halt, if_neg halt]
        simp only
        split
        · rename_i hn2
          rw [if_pos (show (0 : Int) < (n : Int) - (ds.length : Int) by
            rw [hplen, if_neg halt] at hroom
            rw [if_pos hn2] at hroom
            push_cast
            omega)]
          simp
        · simp

/-- C2 (amended): a base outside `[2, 36]` always yields the null span, and a
null span is only ever returned when the base is invalid or the buffer is too
small for the full result (digits, optional base prefix, optional sign);
conversely a buffer that holds the full result always succeeds with exactly
that text.  But a too-small buffer does *not* always yield a null span: the
digit loop writes unchecked, so for a non-zero value with no prefix and no
sign the encoder returns a non-null span longer than the buffer instead (see
the counterexample). -/
theorem claim_C2_amended (signed : Bool) (w : Nat) (n : Nat) (v : Int)
    (base : Nat) (uppercase alternate : Bool) :
    ((base < 2 ∨ 36 < base) →
      from_integer signed w n v base uppercase alternate = none) ∧
    (from_integer signed w n v base uppercase alternate = none →
      base < 2 ∨ 36 < base ∨ n < requiredLen signed w v base uppercase alternate) ∧
    (2 ≤ base → base ≤ 36 →
      requiredLen signed w v base uppercase alternate ≤ n →
      from_integer signed w n v base uppercase alternate =
        some (expectedText signed w v base uppercase alternate)) :=
  from_integer_spec signed w n v base uppercase alternate

/-- Witness for C2: base 99 gives a null span; a 64-byte buffer encodes
`-255` in base 16 with prefix as "-0xff". -/
theorem claim_C2_witness :
    from_integer true 32 64 (-255) 16 false true = some ("-0xff".toList) ∧
    from_integer true 32 64 5 99 false false = none := by
  constructor
  · have h := (claim_C2_amended true 32 64 (-255) 16 false true).2.2
      (by norm_num) (by norm_num) (by decide)
    rw [h]
    decide
  · exact (claim_C2_amended true 32 64 5 99 false false).1 (by norm_num)

/-! ## The template engine (`gr/format.hh`)

The engine is modelled over the template as a `List Char` with explicit
indices; arguments are modelled as a list of C++ `int` values (`Int` in the
model, 32-bit in the source), which is the capability the claims C3 and C5
exercise.  As in the source, the output is accumulated by appending. -/

/-- Model of `gr::toy::format_spec` (the `fmt_beg`/`fmt_end` raw-pattern
pointers are carried as the pattern text itself). -/
structure format_spec where
  width : Int := -1
  precision : Int := -1
  fill : Char := ' '
  align : Char := '\x00'
  sign : Char := '-'
  alternate : Bool := false
  type : Char := '\x00'
  pattern : List Char := []
  deriving DecidableEq, Repr

/-- The template-grammar errors thrown as `format_error` by the engine
(one constructor per throw site reachable in the modelled fragment). -/
inductive FmtError where
  | unclosed_brace
  | unmatched_closing_brace
  | invalid_argument_index
  | argument_index_out_of_range
  | width_too_large
  | precision_too_large
  | cannot_convert_chars
  | invalid_value_from_argument
  deriving DecidableEq, Repr

/-- Model of `gr::toy::detail::apply_alignment`: the characters appended to
the output for a content span under a spec (`output.put(n, fill)` appends
`List.replicate n fill`). -/
def apply_alignment (content : List Char) (spec : format_spec) : List Char :=
  if spec.width ≤ 0 ∨ spec.width.toNat ≤ content.length then content
  else
    let padding := spec.width.toNat - content.length
    if content.length = 0 ∧ 0 < spec.width then List.replicate padding spec.fill
    else if spec.align = '<' then
      content ++ List.replicate padding spec.fill
    else if spec.align = '^' then
      let left_pad := padding / 2
      let right_pad := padding - left_pad
      List.replicate left_pad spec.fill ++ content ++ List.replicate right_pad spec.fill
    else
      -- case '>' and the default branch coincide (right alignment)
      List.replicate padding spec.fill ++ content

/-- C9: the shared alignment step never truncates — with no width or content
at least as wide, the output is exactly the content; otherwise the output has
length exactly `width` and is the content surrounded by `width - length` fill
characters split according to the alignment. -/
theorem claim_C9_alignment (content : List Char) (spec : format_spec) :
    ((spec.width ≤ 0 ∨ spec.width.toNat ≤ content.length) →
      apply_alignment content spec = content) ∧
    (0 < spec.width → content.length < spec.width.toNat →
      (apply_alignment content spec).length = spec.width.toNat ∧
      ∃ l r, l + r + content.length = spec.width.toNat ∧
        apply_alignment content spec =
          List.replicate l spec.fill ++ content ++ List.replicate r spec.fill) := by
  constructor
  · intro h
    unfold apply_alignment
    rw [if_pos h]
  · intro hw hlen
    have hcond : ¬(spec.width ≤ 0 ∨ spec.width.toNat ≤ content.length) := by
      push_neg
      exact ⟨by omega, by omega⟩
    have hbody : apply_alignment content spec =
        (if content.length = 0 ∧ 0 < spec.width then
          List.replicate (spec.width.toNat - content.length) spec.fill
        else if spec.align = '<' then
          content ++ List.replicate (spec.width.toNat - content.length) spec.fill
        else if spec.align = '^' then
          List.replicate ((spec.width.toNat - content.length) / 2) spec.fill ++ content ++
            List.replicate ((spec.width.toNat - content.length) -
              (spec.width.toNat - content.length) / 2) spec.fill
        else
          List.replicate (spec.width.toNat - content.length) spec.fill ++ content) := by
      unfold apply_alignment
      rw [if_neg hcond]
    set padding := spec.width.toNat - content.length with hpad
    have hp0 : 0 < padding := by omega
    rw [hbody]
    by_cases hzero : content.length = 0 ∧ 0 < spec.width
    · rw [if_pos hzero]
      refine ⟨by simp; omega, padding, 0, by omega, ?_⟩
      have : content = [] := List.eq_nil_of_length_eq_zero hzero.1
      simp [this]
    · rw [if_neg hzero]
      by_cases hl : spec.align = '<'
      · rw [if_pos hl]
        refine ⟨by simp; omega, 0, padding, by omega, by simp⟩
      · rw [if_neg hl]
        by_cases hc : spec.align = '^'
        · rw [if_pos hc]
          refine ⟨by simp; omega, padding / 2, padding - padding / 2, by omega, rfl⟩
        · rw [if_neg hc]
          refine ⟨by simp; omega, padding, 0, by omega, by simp⟩

/-- Witness for C9 at concrete inputs: a centered two-char content in width
7, and a content wider than the width passed through unchanged. -/
theorem claim_C9_witness :
    (apply_alignment ['a', 'b'] { width := 7, fill := '*', align := '^' }).length = 7 ∧
    apply_alignment ['a', 'b', 'c'] { width := 2 } = ['a', 'b', 'c'] := by
  constructor
  · exact (claim_C9_alignment ['a', 'b'] { width := 7, fill := '*', align := '^' }).2
      (by norm_num) (by norm_num) |>.1
  · exact (claim_C9_alignment ['a', 'b', 'c'] { width := 2 }).1 (by norm_num)

/-- Decimal digit test of the parser (`*p >= '0' && *p <= '9'`). -/
def isDigitChar (c : Char) : Bool := 48 ≤ c.toNat && c.toNat ≤ 57

/-- Model of `gr::toy::detail::pre_parse_integer_type`: base and uppercase
flag from the type tag. -/
def pre_parse_integer_type (spec : format_spec) : Nat × Bool :=
  if spec.type = 'b' ∨ spec.type = 'B' then (2, spec.type = 'B')
  else if spec.type = 'o' then (8, false)
  else if spec.type = 'x' ∨ spec.type = 'X' then (16, spec.type = 'X')
  else (10, false)

/-- Model of `make_general_integer_buffer_size` (switch on `sizeof(T)`). -/
def make_general_integer_buffer_size (w : Nat) : Nat :=
  if w = 8 ∨ w = 16 then 16
  else if w = 32 then 24
  else if w = 64 then 32
  else 45

/-- Model of `gr::toy::detail::format_integer_impl` for a `w`-bit signed or
unsigned argument: the characters appended to the output.  On the fast path
a null `itoss` result appends nothing (`if (ptr != nullptr)`); on the general
path the (never-null for these buffer sizes) result goes through
`apply_alignment`. -/
def format_integer_impl (signed : Bool) (w : Nat) (value : Int)
    (spec : format_spec) : List Char :=
  if spec.width ≤ 0 ∧ spec.precision < 0 ∧ spec.alternate = false ∧
      (spec.type = '\x00' ∨ spec.type = 'd') then
    match from_integer signed w (make_general_integer_buffer_size w) value 10
        false false with
    | some s => s
    | none => []
  else
    let bu := pre_parse_integer_type spec
    if bu.1 = 2 then
      apply_alignment
        ((from_integer signed w (w + 8) value 2 bu.2 spec.alternate).getD []) spec
    else
      apply_alignment
        ((from_integer signed w (make_general_integer_buffer_size w) value bu.1
          bu.2 spec.alternate).getD []) spec

/-- Model of `format_arg_dispatch` for an argument tuple of C++ `int` values
(the capability the claims exercise): bound check, then the integer
formatter. -/
def format_arg_dispatch (args : List Int) (target_index : Nat)
    (spec : format_spec) : Except FmtError (List Char) :=
  if args.length ≤ target_index then .error .argument_index_out_of_range
  else .ok (format_integer_impl true 32 (args.getD target_index 0) spec)

/-! Scanning loops of the engine.  Each is written structurally over an
explicit iteration count; every call site passes exactly the number of
positions left to scan, so the bounded loop coincides with the source's
`while` loop (the loop advances one position per iteration and always stops
at the end index). -/

/-- `while (nested_end < end && *nested_end != '}') nested_end++`. -/
def scanClose_go (t : List Char) (endIdx : Nat) : Nat → Nat → Nat
  | 0, j => j
  | fuel + 1, j =>
    if j < endIdx ∧ t.getD j '\x00' ≠ '}' then scanClose_go t endIdx fuel (j + 1)
    else j

/-- Position of the closing brace of a nested placeholder (or the end). -/
def scanClose (t : List Char) (endIdx j : Nat) : Nat :=
  scanClose_go t endIdx (endIdx - j) j

/-- Model of `try_parse_indexed_placeholder`: on a nested all-digit
`{number}`, resolve the referenced argument, format it with a default spec,
decode the text back through `sstoi`, and store it as width or precision.
Returns `none` (no error) when the shape does not match.  The source wraps
the decode of the formatted argument in a `try`/`catch (...)` that rethrows
as the invalid-value error. -/
def try_parse_indexed_placeholder (t : List Char) (endIdx : Nat)
    (args : List Int) (i autoIdx argc : Nat) (parentExplicit : Bool)
    (spec : format_spec) (isWidth : Bool) :
    Except FmtError (Option (Nat × Nat × format_spec)) :=
  let nested_start := i + 1
  let nested_end := scanClose t endIdx nested_start
  if nested_end < endIdx ∧ nested_start < nested_end then
    let content := (t.drop nested_start).take (nested_end - nested_start)
    if content.all isDigitChar then
      let idxRes : Except FmtError (Nat × Nat) :=
        if parentExplicit then
          let r := sstoi false 64 content 10
          if r.2.2 ≠ Errc.none then .error .cannot_convert_chars
          else if argc ≤ r.1.toNat then .error .argument_index_out_of_range
          else .ok (r.1.toNat, autoIdx)
        else
          if argc ≤ autoIdx then .error .argument_index_out_of_range
          else .ok (autoIdx, autoIdx + 1)
      match idxRes with
      | .error e => .error e
      | .ok (nested_index, autoIdx2) =>
        match format_arg_dispatch args nested_index {} with
        | .error e => .error e
        | .ok temp_out =>
          let r2 := sstoi true 32 temp_out 10
          if r2.2.2 ≠ Errc.none then .error .invalid_value_from_argument
          else
            .ok (some (nested_end + 1, autoIdx2,
              if isWidth then { spec with width := r2.1 }
              else { spec with precision := r2.1 }))
    else .ok none
  else .ok none

/-- Model of `try_parse_empty_placeholder`: a nested `{}` takes the next
auto-indexed argument as the width or precision value (both the
parent-explicit and the automatic branch advance the auto counter by one). -/
def try_parse_empty_placeholder (t : List Char) (endIdx : Nat)
    (args : List Int) (i autoIdx argc : Nat)
    (spec : format_spec) (isWidth : Bool) :
    Except FmtError (Option (Nat × Nat × format_spec)) :=
  if i + 1 < endIdx ∧ t.getD (i + 1) '\x00' = '}' then
    if argc ≤ autoIdx then .error .argument_index_out_of_range
    else
      match format_arg_dispatch args autoIdx {} with
      | .error e => .error e
      | .ok temp_out =>
        let r2 := sstoi true 32 temp_out 10
        if r2.2.2 ≠ Errc.none then .error .invalid_value_from_argument
        else
          .ok (some (i + 2, autoIdx + 1,
            if isWidth then { spec with width := r2.1 }
            else { spec with precision := r2.1 }))
  else .ok none

/-- The numeric width run of `parse_format_spec_with_args`
(`do { width = width*10 + d; ++ptr; if (width > MAX_WIDTH) throw; } while digit`). -/
def widthRun (t : List Char) (endIdx : Nat) : Nat → Nat → Nat →
    Except FmtError (Nat × Nat)
  | 0, i, width => .ok (i, width)
  | fuel + 1, i, width =>
    let width := width * 10 + ((t.getD i '\x00').toNat - 48)
    let i := i + 1
    if 10000 < width then .error .width_too_large
    else if i < endIdx ∧ isDigitChar (t.getD i '\x00') then
      widthRun t endIdx fuel i width
    else .ok (i, width)

/-- The numeric precision run (ceiling `MAX_PRECISION = 1000`). -/
def precisionRun (t : List Char) (endIdx : Nat) : Nat → Nat → Nat →
    Except FmtError (Nat × Nat)
  | 0, i, precision => .ok (i, precision)
  | fuel + 1, i, precision =>
    let precision := precision * 10 + ((t.getD i '\x00').toNat - 48)
    let i := i + 1
    if 1000 < precision then .error .precision_too_large
    else if i < endIdx ∧ isDigitChar (t.getD i '\x00') then
      precisionRun t endIdx fuel i precision
    else .ok (i, precision)

/-- The scanning loop of `parse_format_spec_with_args` (the `while`/`switch`
over the spec region `[begIdx, endIdx)`); one iteration per fuel unit, and
every iteration advances the position, so the fuel `endIdx - begIdx + 1`
supplied by the wrapper is never exhausted. -/
def parse_spec_loop (t : List Char) (begIdx endIdx : Nat) (args : List Int)
    (argc : Nat) (parentExplicit : Bool) :
    Nat → Nat → Nat → format_spec → Except FmtError (format_spec × Nat)
  | 0, _, autoIdx, spec => .ok (spec, autoIdx)
  | fuel + 1, i, autoIdx, spec =>
    if endIdx ≤ i then .ok (spec, autoIdx)
    else
      let c := t.getD i '\x00'
      if c = '<' ∨ c = '>' ∨ c = '^' then
        let spec :=
          if begIdx < i ∧ t.getD (i - 1) '\x00' ≠ '}' ∧ t.getD (i - 1) '\x00' ≠ '{'
          then { spec with fill := t.getD (i - 1) '\x00' } else spec
        parse_spec_loop t begIdx endIdx args argc parentExplicit fuel (i + 1)
          autoIdx { spec with align := c }
      else if c = '+' ∨ c = '-' ∨ c = ' ' then
        parse_spec_loop t begIdx endIdx args argc parentExplicit fuel (i + 1)
          autoIdx { spec with sign := c }
      else if c = '#' then
        parse_spec_loop t begIdx endIdx args argc parentExplicit fuel (i + 1)
          autoIdx { spec with alternate := true }
      else if c = '.' then
        let j := i + 1
        if j < endIdx then
          if t.getD j '\x00' = '{' then
            match try_parse_indexed_placeholder t endIdx args j autoIdx argc
                parentExplicit spec false with
            | .error e => .error e
            | .ok (some (j2, a2, s2)) =>
              parse_spec_loop t begIdx endIdx args argc parentExplicit fuel j2 a2 s2
            | .ok none =>
              match try_parse_empty_placeholder t endIdx args j autoIdx argc
                  spec false with
              | .error e => .error e
              | .ok (some (j2, a2, s2)) =>
                parse_spec_loop t begIdx endIdx args argc parentExplicit fuel j2 a2 s2
              | .ok none =>
                -- '{' is not a digit: `spec.precision = 0`, position unchanged
                parse_spec_loop t begIdx endIdx args argc parentExplicit fuel j
                  autoIdx { spec with precision := 0 }
          else if isDigitChar (t.getD j '\x00') then
            match precisionRun t endIdx (endIdx - j) j 0 with
            | .error e => .error e
            | .ok (j2, p) =>
              parse_spec_loop t begIdx endIdx args argc parentExplicit fuel j2
                autoIdx { spec with precision := (p : Int) }
          else
            parse_spec_loop t begIdx endIdx args argc parentExplicit fuel j
              autoIdx { spec with precision := 0 }
        else
          parse_spec_loop t begIdx endIdx args argc parentExplicit fuel j autoIdx spec
      else
        if c = '{' then
          match try_parse_indexed_placeholder t endIdx args i autoIdx argc
              parentExplicit spec true with
          | .error e => .error e
          | .ok (some (j2, a2, s2)) =>
            parse_spec_loop t begIdx endIdx args argc parentExplicit fuel j2 a2 s2
          | .ok none =>
            match try_parse_empty_placeholder t endIdx args i autoIdx argc
                spec true with
            | .error e => .error e
            | .ok (some (j2, a2, s2)) =>
              parse_spec_loop t begIdx endIdx args argc parentExplicit fuel j2 a2 s2
            | .ok none =>
              -- '{' is not a digit: it becomes the type tag
              parse_spec_loop t begIdx endIdx args argc parentExplicit fuel (i + 1)
                autoIdx { spec with type := c }
        else if isDigitChar c then
          match widthRun t endIdx (endIdx - i) i 0 with
          | .error e => .error e
          | .ok (j2, wd) =>
            parse_spec_loop t begIdx endIdx args argc parentExplicit fuel j2
              autoIdx { spec with width := (wd : Int) }
        else
          parse_spec_loop t begIdx endIdx args argc parentExplicit fuel (i + 1)
            autoIdx { spec with type := c }

/-- Model of `gr::toy::detail::parse_format_spec_with_args` over the spec
region `[begIdx, endIdx)`; also returns the updated auto index. -/
def parse_format_spec_with_args (t : List Char) (begIdx endIdx : Nat)
    (args : List Int) (argc autoIdx : Nat) (parentExplicit : Bool) :
    Except FmtError (format_spec × Nat) :=
  parse_spec_loop t begIdx endIdx args argc parentExplicit
    (endIdx - begIdx + 1) begIdx autoIdx
    { pattern := (t.drop begIdx).take (endIdx - begIdx) }

/-- The digit fold of `parse_argument_index` (throws on a non-digit). -/
def parse_index_digits : List Char → Nat → Except FmtError Nat
  | [], acc => .ok acc
  | c :: rest, acc =>
    if isDigitChar c then parse_index_digits rest (acc * 10 + (c.toNat - 48))
    else .error .invalid_argument_index

/-- Model of `gr::toy::detail::parse_argument_index` on the index region
`[startIdx, endIdx)`: all-digit spans are explicit indices, the empty span
takes and increments the auto index.  Returns
`(argument index, new auto index, has_explicit_index)`. -/
def parse_argument_index (t : List Char) (startIdx endIdx autoIdx : Nat) :
    Except FmtError (Nat × Nat × Bool) :=
  if startIdx < endIdx then
    match parse_index_digits ((t.drop startIdx).take (endIdx - startIdx)) 0 with
    | .error e => .error e
    | .ok v => .ok (v, autoIdx, true)
  else .ok (autoIdx, autoIdx + 1, false)

/-- `while (next_special < end && *next_special != '{' && *next_special != '}')`. -/
def scanSpecial_go (t : List Char) (endIdx : Nat) : Nat → Nat → Nat
  | 0, j => j
  | fuel + 1, j =>
    if j < endIdx ∧ t.getD j '\x00' ≠ '{' ∧ t.getD j '\x00' ≠ '}' then
      scanSpecial_go t endIdx fuel (j + 1)
    else j

/-- The brace-matching loop of `format_to`
(`while (placeholder_end < end && brace_level > 0)`); returns the final
position and the final level. -/
def braceScan_go (t : List Char) (endIdx : Nat) : Nat → Nat → Nat → Nat × Nat
  | 0, j, level => (j, level)
  | fuel + 1, j, level =>
    if j < endIdx ∧ 0 < level then
      let c := t.getD j '\x00'
      let level := if c = '{' then level + 1 else if c = '}' then level - 1 else level
      braceScan_go t endIdx fuel (j + 1) level
    else (j, level)

/-- The top-level colon search inside a directive (skipping one level of
nested braces). -/
def colonScan_go (t : List Char) (endIdx : Nat) : Nat → Nat → Int → Nat
  | 0, j, _ => j
  | fuel + 1, j, nested =>
    if endIdx ≤ j then j
    else
      let c := t.getD j '\x00'
      if c = '{' then colonScan_go t endIdx fuel (j + 1) (nested + 1)
      else if c = '}' then colonScan_go t endIdx fuel (j + 1) (nested - 1)
      else if c = ':' ∧ nested = 0 then j
      else colonScan_go t endIdx fuel (j + 1) nested

/-- The main loop of `gr::toy::format_to`: literal runs, `{{`/`}}` escapes,
directive extraction with nesting-aware brace matching, index and spec
parsing, bound check and dispatch.  One directive or escape per fuel unit. -/
def format_to_loop (t : List Char) (endIdx : Nat) (args : List Int) (argc : Nat) :
    Nat → Nat → Nat → List Char → Except FmtError (List Char)
  | 0, _, _, acc => .ok acc
  | fuel + 1, i, autoIdx, acc =>
    if endIdx ≤ i then .ok acc
    else
      let j := scanSpecial_go t endIdx (endIdx - i) i
      let acc := acc ++ (t.drop i).take (j - i)
      if endIdx ≤ j then .ok acc
      else
        let c := t.getD j '\x00'
        if c = '{' then
          if j + 1 < endIdx ∧ t.getD (j + 1) '\x00' = '{' then
            format_to_loop t endIdx args argc fuel (j + 2) autoIdx (acc ++ ['{'])
          else
            let bs := braceScan_go t endIdx (endIdx - (j + 1)) (j + 1) 1
            if 0 < bs.2 then .error .unclosed_brace
            else
              let phc := bs.1 - 1
              let fs := j + 1
              let colon := colonScan_go t phc (phc - fs) fs 0
              if colon < phc then
                match parse_argument_index t fs colon autoIdx with
                | .error e => .error e
                | .ok (argIdx, auto1, hasExp) =>
                  match parse_format_spec_with_args t (colon + 1) phc args argc
                      auto1 hasExp with
                  | .error e => .error e
                  | .ok (spec, auto2) =>
                    if argc ≤ argIdx then .error .argument_index_out_of_range
                    else
                      match format_arg_dispatch args argIdx spec with
                      | .error e => .error e
                      | .ok text =>
                        format_to_loop t endIdx args argc fuel bs.1 auto2 (acc ++ text)
              else
                match parse_argument_index t fs phc autoIdx with
                | .error e => .error e
                | .ok (argIdx, auto1, _) =>
                  if argc ≤ argIdx then .error .argument_index_out_of_range
                  else
                    match format_arg_dispatch args argIdx {} with
                    | .error e => .error e
                    | .ok text =>
                      format_to_loop t endIdx args argc fuel bs.1 auto1 (acc ++ text)
        else
          if j + 1 < endIdx ∧ t.getD (j + 1) '\x00' = '}' then
            format_to_loop t endIdx args argc fuel (j + 2) autoIdx (acc ++ ['}'])
          else .error .unmatched_closing_brace

/-- Model of `gr::toy::format_to` for an argument tuple of C++ `int`
values. -/
def format_to (t : List Char) (args : List Int) : Except FmtError (List Char) :=
  format_to_loop t t.length args args.length (t.length + 1) 0 0 []

/-! ## The default formatting of an `int` argument, and its decode -/

/-- For an in-range 32-bit value the encoder magnitude is the absolute
value. -/
theorem magOf_int32 (v : Int) (h1 : -(2 ^ 31) ≤ v) (h2 : v < 2 ^ 31) :
    magOf true 32 v = v.natAbs := by
  norm_num at h1 h2
  unfold magOf
  norm_num
  split <;> omega

/-- The decimal digit text of an in-range 32-bit value is at most 10
characters. -/
theorem int32_digits_le (v : Int) (h1 : -(2 ^ 31) ≤ v) (h2 : v < 2 ^ 31) :
    (toDigitsM 10 v.natAbs).length ≤ 10 := by
  apply toDigitsM_length_le 10 (by omega) v.natAbs 10 (by omega)
  have : v.natAbs ≤ 2 ^ 31 := by omega
  calc v.natAbs ≤ 2 ^ 31 := this
  _ < 10 ^ 10 := by norm_num

/-- Under the default spec, formatting a 32-bit `int` takes the fast path
and yields an optional minus sign followed by the decimal digits. -/
theorem format_integer_impl_default (v : Int) (h1 : -(2 ^ 31) ≤ v) (h2 : v < 2 ^ 31) :
    format_integer_impl true 32 v {} =
      (if v < 0 then ['-'] else []) ++ (toDigitsM 10 v.natAbs).map digitChar := by
  have hpp : prepare_integer_format_type 10 false = (none, 0) := by decide
  have hreq : requiredLen true 32 v 10 false false ≤
      make_general_integer_buffer_size 32 := by
    unfold requiredLen
    rw [hpp]
    simp only [Option.isSome_none, Bool.false_eq_true, and_false, if_false]
    split
    · decide
    · rw [magOf_int32 v h1 h2]
      unfold conv_integer_chars
      rw [if_pos rfl, convA_eq, List.length_map]
      have := int32_digits_le v h1 h2
      show _ ≤ 24
      split <;> omega
  have hsucc := (from_integer_spec true 32 (make_general_integer_buffer_size 32)
    v 10 false false).2.2 (by norm_num) (by norm_num) hreq
  have hexp : expectedText true 32 v 10 false false =
      (if v < 0 then ['-'] else []) ++ (toDigitsM 10 v.natAbs).map digitChar := by
    unfold expectedText
    rw [hpp]
    simp only [Option.isSome_none, Bool.false_eq_true, and_false, if_false]
    by_cases hv : v = 0
    · rw [if_pos hv]
      subst hv
      decide
    · rw [if_neg hv, magOf_int32 v h1 h2]
      unfold conv_integer_chars
      rw [if_pos rfl, convA_eq]
      simp
  unfold format_integer_impl
  rw [if_pos (by refine ⟨by decide, by decide, rfl, Or.inl rfl⟩)]
  rw [hsucc, hexp]

/-- Value of `check_integer_overflow` for a 32-bit signed target and a
negative sign, for magnitudes up to `2^31`. -/
theorem check_overflow_neg32 (m : Nat) (hm : m ≤ 2 ^ 31) :
    check_integer_overflow true 32 (-1) m = (-(m : Int), Errc.none) := by
  norm_num at hm
  unfold check_integer_overflow wrapSigned toSigned
  rw [if_pos rfl, if_pos rfl]
  rw [if_neg (by norm_num; omega)]
  rw [Prod.mk.injEq]
  refine ⟨?_, rfl⟩
  norm_num
  split <;> omega

/-- Value of `check_integer_overflow` for a 32-bit signed target and a
positive sign, for magnitudes below `2^31`. -/
theorem check_overflow_pos32 (m : Nat) (hm : m < 2 ^ 31) :
    check_integer_overflow true 32 1 m = ((m : Int), Errc.none) := by
  norm_num at hm
  unfold check_integer_overflow toSigned
  rw [if_pos rfl, if_neg (show ¬((1 : Int) = -1) by norm_num)]
  rw [if_neg (show ¬(2 ^ (32 - 1) - 1 < m) by norm_num; omega)]
  rw [if_pos (show m < 2 ^ (32 - 1) by norm_num; omega)]

/-- Decoding the default-formatted text of an in-range 32-bit `int` returns
the value, consuming the whole text with no error (the decode side of the
nested width/precision resolution). -/
theorem sstoi_int_text (v : Int) (h1 : -(2 ^ 31) ≤ v) (h2 : v < 2 ^ 31) :
    sstoi true 32
      ((if v < 0 then ['-'] else []) ++ (toDigitsM 10 v.natAbs).map digitChar) 10 =
      (v, (if v < 0 then 1 else 0) + (toDigitsM 10 v.natAbs).length, Errc.none) := by
  obtain ⟨d0, tl, hds⟩ : ∃ d0 tl, toDigitsM 10 v.natAbs = d0 :: tl := by
    cases h : toDigitsM 10 v.natAbs with
    | nil => exact absurd h (toDigitsM_ne_nil 10 v.natAbs)
    | cons d tl => exact ⟨d, tl, rfl⟩
  have hd0 : d0 < 10 := toDigitsM_lt 10 (by omega) v.natAbs d0 (by rw [hds]; simp)
  have hsign := digitChar_ne_sign d0 (by omega)
  have hst : stoi_base10_u (2 ^ 32 - 1) ((toDigitsM 10 v.natAbs).map digitChar) =
      ([], v.natAbs, Errc.none) :=
    stoi_base10_u_digits (2 ^ 32 - 1) v.natAbs (by omega)
  by_cases hv : v < 0
  · rw [if_pos hv, if_pos hv]
    unfold sstoi
    rw [if_neg (by
      simp only [not_or]
      refine ⟨by simp [hds], by norm_num, by norm_num⟩)]
    have hgs : get_sign_for_sstov
        (['-'] ++ (toDigitsM 10 v.natAbs).map digitChar) =
        (-1, (toDigitsM 10 v.natAbs).map digitChar) := by
      simp [get_sign_for_sstov]
    simp only [hgs, hst]
    have h10 : (10 : Int).toNat = 10 := rfl
    simp only [h10]
    norm_num
    rw [check_overflow_neg32 v.natAbs (by norm_num; omega)]
    refine ⟨?_, rfl⟩
    show -(v.natAbs : Int) = v
    omega
  · rw [if_neg hv, if_neg hv]
    unfold sstoi
    rw [if_neg (by
      simp only [not_or]
      refine ⟨by simp [hds], by norm_num, by norm_num⟩)]
    have hgs : get_sign_for_sstov ((toDigitsM 10 v.natAbs).map digitChar) =
        (1, (toDigitsM 10 v.natAbs).map digitChar) := by
      rw [hds]
      simp only [List.map_cons, get_sign_for_sstov]
      rw [if_neg hsign.1, if_neg hsign.2]
    simp only [List.nil_append, hgs, hst]
    have h10 : (10 : Int).toNat = 10 := rfl
    simp only [h10]
    norm_num
    rw [check_overflow_pos32 v.natAbs (by norm_num; omega)]
    refine ⟨?_, rfl⟩
    show (v.natAbs : Int) = v
    omega

/-- Claim C3 counterexample: the runtime entry point `format_to` does not
reject a template that mixes automatic indexing (an empty placeholder) with
explicit indexing (an all-digit placeholder).  On the template
`{}{0}` with arguments `[7, 9]` it succeeds and silently resolves both
directives to argument 0, producing "77". -/
theorem claim_C3_counterexample :
    format_to ['{', '}', '{', '0', '}'] [7, 9] = .ok ['7', '7'] := rfl

/-- Claim C3 amended: for every two arguments, the runtime `format_to` on the
mixed-indexing template `{}{0}` succeeds (no mixed-indexing error is raised by
the runtime path), and both directives resolve to argument 0: the empty
placeholder uses the automatic counter starting at 0, and `{0}` is explicit.
The result is the default-spec formatting of the first argument, twice.  The
mixing check exists only in the consteval format-string checker, which runs
solely on compile-time string literals, not in the runtime formatting entry
point modelled here. -/
theorem claim_C3_amended (a b : Int) :
    format_to ['{', '}', '{', '0', '}'] [a, b] =
      .ok (format_integer_impl true 32 a {} ++ format_integer_impl true 32 a {}) := by
  have h : format_to ['{', '}', '{', '0', '}'] [a, b] =
      .ok (((format_integer_impl true 32 a {}) ++ []) ++
        format_integer_impl true 32 a {}) := rfl
  rw [h]
  simp

/-! ## C5: width and precision ceilings -/

/-- Decimal digit characters have code `48 + d`. -/
theorem digitChar_toNat : ∀ d, d < 10 → (digitChar d).toNat = 48 + d := by decide

/-- Decimal digit characters pass the parser's digit test. -/
theorem isDigitChar_digitChar : ∀ d, d < 10 → isDigitChar (digitChar d) = true := by decide

theorem isDigitChar_bounds (c : Char) (h : isDigitChar c = true) :
    48 ≤ c.toNat ∧ c.toNat ≤ 57 := by
  simp only [isDigitChar, Bool.and_eq_true, decide_eq_true_eq] at h
  exact h

theorem getD_map_digitChar (ds : List Nat) (k : Nat) (hk : k < ds.length) :
    (ds.map digitChar).getD k '\x00' = digitChar (ds.getD k 0) := by
  induction ds generalizing k with
  | nil => simp at hk
  | cons d rest ih =>
    cases k with
    | zero => rfl
    | succ m =>
      simp only [List.map_cons, List.getD_cons_succ]
      exact ih m (by simp at hk; omega)

/-- The width digit run over a digit span reaching the end of the template:
it errors exactly when the folded value exceeds the 10000 ceiling. -/
theorem widthRun_digits (ds : List Nat) : ∀ (t : List Char) (i acc : Nat),
    ds ≠ [] → (∀ d ∈ ds, d < 10) → i + ds.length = t.length →
    (∀ k, k < ds.length → t.getD (i + k) '\x00' = digitChar (ds.getD k 0)) →
    widthRun t t.length ds.length i acc =
      if 10000 < foldDigits 10 acc ds then .error .width_too_large
      else .ok (t.length, foldDigits 10 acc ds) := by
  induction ds with
  | nil => intro t i acc hne; exact absurd rfl hne
  | cons d rest ih =>
    intro t i acc _ hlt hlen hget
    have hd : d < 10 := hlt d (by simp)
    have hgd : t.getD i '\x00' = digitChar d := by
      have := hget 0 (by simp)
      simpa using this
    have htn : (t.getD i '\x00').toNat - 48 = d := by
      rw [hgd, digitChar_toNat d hd]; omega
    cases rest with
    | nil =>
      have hlen' : i + 1 = t.length := by
        simp only [List.length_cons, List.length_nil] at hlen; omega
      show widthRun t t.length (0 + 1) i acc = _
      simp only [widthRun, htn]
      rw [if_neg (show ¬(i + 1 < t.length ∧
        isDigitChar (t.getD (i + 1) '\x00') = true) from by rintro ⟨h1, _⟩; omega)]
      simp only [foldDigits_cons, foldDigits_nil]
      by_cases hbig : 10000 < acc * 10 + d
      · rw [if_pos hbig, if_pos hbig]
      · rw [if_neg hbig, if_neg hbig, hlen']
    | cons d1 rest1 =>
      have hlen' : i + rest1.length + 2 = t.length := by
        simp only [List.length_cons] at hlen; omega
      show widthRun t t.length ((d1 :: rest1).length + 1) i acc = _
      simp only [widthRun, htn]
      by_cases hbig : 10000 < acc * 10 + d
      · rw [if_pos hbig]
        have hge : acc * 10 + d ≤ foldDigits 10 (acc * 10 + d) (d1 :: rest1) :=
          foldDigits_ge 10 (by omega) _ _
        rw [foldDigits_cons, if_pos (by omega)]
      · rw [if_neg hbig]
        have hd1 : d1 < 10 := hlt d1 (by simp)
        have hg1 : t.getD (i + 1) '\x00' = digitChar d1 := by
          have := hget 1 (by simp)
          simpa using this
        rw [if_pos ⟨by omega,
          by rw [hg1]; exact isDigitChar_digitChar d1 hd1⟩]
        rw [foldDigits_cons]
        refine ih t (i + 1) (acc * 10 + d) (by simp)
          (fun x hx => hlt x (by simp [hx]))
          (by simp only [List.length_cons]; omega) ?_
        intro k hk
        have hk' : k < rest1.length + 1 := by
          simp only [List.length_cons] at hk; omega
        have hg := hget (k + 1) (by simp only [List.length_cons]; omega)
        have e1 : i + 1 + k = i + (k + 1) := by omega
        rw [e1, hg]
        simp

/-- The precision digit run: ceiling 1000. -/
theorem precisionRun_digits (ds : List Nat) : ∀ (t : List Char) (i acc : Nat),
    ds ≠ [] → (∀ d ∈ ds, d < 10) → i + ds.length = t.length →
    (∀ k, k < ds.length → t.getD (i + k) '\x00' = digitChar (ds.getD k 0)) →
    precisionRun t t.length ds.length i acc =
      if 1000 < foldDigits 10 acc ds then .error .precision_too_large
      else .ok (t.length, foldDigits 10 acc ds) := by
  induction ds with
  | nil => intro t i acc hne; exact absurd rfl hne
  | cons d rest ih =>
    intro t i acc _ hlt hlen hget
    have hd : d < 10 := hlt d (by simp)
    have hgd : t.getD i '\x00' = digitChar d := by
      have := hget 0 (by simp)
      simpa using this
    have htn : (t.getD i '\x00').toNat - 48 = d := by
      rw [hgd, digitChar_toNat d hd]; omega
    cases rest with
    | nil =>
      have hlen' : i + 1 = t.length := by
        simp only [List.length_cons, List.length_nil] at hlen; omega
      show precisionRun t t.length (0 + 1) i acc = _
      simp only [precisionRun, htn]
      rw [if_neg (show ¬(i + 1 < t.length ∧
        isDigitChar (t.getD (i + 1) '\x00') = true) from by rintro ⟨h1, _⟩; omega)]
      simp only [foldDigits_cons, foldDigits_nil]
      by_cases hbig : 1000 < acc * 10 + d
      · rw [if_pos hbig, if_pos hbig]
      · rw [if_neg hbig, if_neg hbig, hlen']
    | cons d1 rest1 =>
      have hlen' : i + rest1.length + 2 = t.length := by
        simp only [List.length_cons] at hlen; omega
      show precisionRun t t.length ((d1 :: rest1).length + 1) i acc = _
      simp only [precisionRun, htn]
      by_cases hbig : 1000 < acc * 10 + d
      · rw [if_pos hbig]
        have hge : acc * 10 + d ≤ foldDigits 10 (acc * 10 + d) (d1 :: rest1) :=
          foldDigits_ge 10 (by omega) _ _
        rw [foldDigits_cons, if_pos (by omega)]
      · rw [if_neg hbig]
        have hd1 : d1 < 10 := hlt d1 (by simp)
        have hg1 : t.getD (i + 1) '\x00' = digitChar d1 := by
          have := hget 1 (by simp)
          simpa using this
        rw [if_pos ⟨by omega,
          by rw [hg1]; exact isDigitChar_digitChar d1 hd1⟩]
        rw [foldDigits_cons]
        refine ih t (i + 1) (acc * 10 + d) (by simp)
          (fun x hx => hlt x (by simp [hx]))
          (by simp only [List.length_cons]; omega) ?_
        intro k hk
        have hk' : k < rest1.length + 1 := by
          simp only [List.length_cons] at hk; omega
        have hg := hget (k + 1) (by simp only [List.length_cons]; omega)
        have e1 : i + 1 + k = i + (k + 1) := by omega
        rw [e1, hg]
        simp

/-- The scanning loop is over once the position reaches the end index. -/
theorem parse_spec_loop_end (t : List Char) (b endIdx : Nat) (args : List Int)
    (argc : Nat) (pe : Bool) (fuel i auto : Nat) (spec : format_spec)
    (h : endIdx ≤ i) :
    parse_spec_loop t b endIdx args argc pe fuel i auto spec = .ok (spec, auto) := by
  cases fuel with
  | zero => rfl
  | succ m =>
    show parse_spec_loop t b endIdx args argc pe (m + 1) i auto spec = _
    simp only [parse_spec_loop]
    rw [if_pos h]

/-- A digit at the cursor sends the spec parser into the width run. -/
theorem parse_spec_loop_digit_step (t : List Char) (b endIdx : Nat)
    (args : List Int) (argc : Nat) (pe : Bool) (fuel i auto : Nat)
    (spec : format_spec) (hi : i < endIdx)
    (hd : isDigitChar (t.getD i '\x00') = true) :
    parse_spec_loop t b endIdx args argc pe (fuel + 1) i auto spec =
      match widthRun t endIdx (endIdx - i) i 0 with
      | .error e => .error e
      | .ok (j2, wd) =>
        parse_spec_loop t b endIdx args argc pe fuel j2 auto
          { spec with width := (wd : Int) } := by
  obtain ⟨hb1, hb2⟩ := isDigitChar_bounds _ hd
  simp only [parse_spec_loop]
  rw [if_neg (by omega : ¬(endIdx ≤ i))]
  rw [if_neg (show ¬(t.getD i '\x00' = '<' ∨ t.getD i '\x00' = '>' ∨
      t.getD i '\x00' = '^') from by
    rintro (hc | hc | hc) <;> rw [hc] at hb2 <;> exact absurd hb2 (by decide))]
  rw [if_neg (show ¬(t.getD i '\x00' = '+' ∨ t.getD i '\x00' = '-' ∨
      t.getD i '\x00' = ' ') from by
    rintro (hc | hc | hc) <;> rw [hc] at hb1 <;> exact absurd hb1 (by decide))]
  rw [if_neg (show ¬(t.getD i '\x00' = '#') from by
    intro hc; rw [hc] at hb1; exact absurd hb1 (by decide))]
  rw [if_neg (show ¬(t.getD i '\x00' = '.') from by
    intro hc; rw [hc] at hb1; exact absurd hb1 (by decide))]
  rw [if_neg (show ¬(t.getD i '\x00' = '{') from by
    intro hc; rw [hc] at hb2; exact absurd hb2 (by decide))]
  rw [if_pos hd]

/-- A dot followed by a digit sends the spec parser into the precision run. -/
theorem parse_spec_loop_dot_step (t : List Char) (b endIdx : Nat)
    (args : List Int) (argc : Nat) (pe : Bool) (fuel i auto : Nat)
    (spec : format_spec) (hi : i < endIdx) (hc : t.getD i '\x00' = '.')
    (hj : i + 1 < endIdx)
    (hd : isDigitChar (t.getD (i + 1) '\x00') = true) :
    parse_spec_loop t b endIdx args argc pe (fuel + 1) i auto spec =
      match precisionRun t endIdx (endIdx - (i + 1)) (i + 1) 0 with
      | .error e => .error e
      | .ok (j2, p) =>
        parse_spec_loop t b endIdx args argc pe fuel j2 auto
          { spec with precision := (p : Int) } := by
  obtain ⟨hb1, hb2⟩ := isDigitChar_bounds _ hd
  simp only [parse_spec_loop]
  rw [if_neg (by omega : ¬(endIdx ≤ i))]
  rw [hc]
  rw [if_neg (by decide : ¬(('.' : Char) = '<' ∨ ('.' : Char) = '>' ∨
    ('.' : Char) = '^'))]
  rw [if_neg (by decide : ¬(('.' : Char) = '+' ∨ ('.' : Char) = '-' ∨
    ('.' : Char) = ' '))]
  rw [if_neg (by decide : ¬(('.' : Char) = '#'))]
  rw [if_pos (rfl : ('.' : Char) = '.')]
  rw [if_pos hj]
  rw [if_neg (show ¬(t.getD (i + 1) '\x00' = '{') from by
    intro hg; rw [hg] at hb2; exact absurd hb2 (by decide))]
  rw [if_pos hd]

/-- A literal all-digit width region errors exactly above the 10000 ceiling. -/
theorem parse_digits_width (ds : List Nat) (hne : ds ≠ [])
    (hlt : ∀ d ∈ ds, d < 10) (args : List Int) (argc auto : Nat) (pe : Bool) :
    parse_format_spec_with_args (ds.map digitChar) 0 (ds.map digitChar).length
        args argc auto pe =
      if 10000 < foldDigits 10 0 ds then .error .width_too_large
      else .ok ({ width := (foldDigits 10 0 ds : Int), pattern := ds.map digitChar }, auto) := by
  obtain ⟨d0, ds', rfl⟩ : ∃ d0 ds', ds = d0 :: ds' := by
    cases ds with
    | nil => exact absurd rfl hne
    | cons a l => exact ⟨a, l, rfl⟩
  unfold parse_format_spec_with_args
  have hpat : (((d0 :: ds').map digitChar).drop 0).take
      (((d0 :: ds').map digitChar).length - 0) = (d0 :: ds').map digitChar := by
    simp
  rw [hpat]
  rw [parse_spec_loop_digit_step ((d0 :: ds').map digitChar) 0
    ((d0 :: ds').map digitChar).length args argc pe
    (((d0 :: ds').map digitChar).length - 0) 0 auto _ (by simp)
    (by
      rw [getD_map_digitChar (d0 :: ds') 0 (by simp)]
      exact isDigitChar_digitChar d0 (hlt d0 (by simp)))]
  have hw := widthRun_digits (d0 :: ds') ((d0 :: ds').map digitChar) 0 0
    (by simp) hlt (by simp)
    (fun k hk => by rw [Nat.zero_add]; exact getD_map_digitChar _ k hk)
  rw [show ((d0 :: ds').map digitChar).length - 0 = (d0 :: ds').length from by simp]
  rw [show ((d0 :: ds').map digitChar).length = (d0 :: ds').length from by simp] at hw ⊢
  rw [hw]
  by_cases hbig : 10000 < foldDigits 10 0 (d0 :: ds')
  · rw [if_pos hbig, if_pos hbig]
  · rw [if_neg hbig, if_neg hbig]
    exact parse_spec_loop_end _ _ _ _ _ _ _ _ _ _ (le_refl _)

/-- A literal all-digit precision region errors exactly above the 1000
ceiling. -/
theorem parse_digits_precision (ds : List Nat) (hne : ds ≠ [])
    (hlt : ∀ d ∈ ds, d < 10) (args : List Int) (argc auto : Nat) (pe : Bool) :
    parse_format_spec_with_args ('.' :: ds.map digitChar) 0
        ('.' :: ds.map digitChar).length args argc auto pe =
      if 1000 < foldDigits 10 0 ds then .error .precision_too_large
      else .ok ({ precision := (foldDigits 10 0 ds : Int), pattern := '.' :: ds.map digitChar }, auto) := by
  obtain ⟨d0, ds', rfl⟩ : ∃ d0 ds', ds = d0 :: ds' := by
    cases ds with
    | nil => exact absurd rfl hne
    | cons a l => exact ⟨a, l, rfl⟩
  unfold parse_format_spec_with_args
  have hpat : (('.' :: (d0 :: ds').map digitChar).drop 0).take
      (('.' :: (d0 :: ds').map digitChar).length - 0) =
      '.' :: (d0 :: ds').map digitChar := by
    simp
  rw [hpat]
  rw [parse_spec_loop_dot_step ('.' :: (d0 :: ds').map digitChar) 0
    ('.' :: (d0 :: ds').map digitChar).length args argc pe
    (('.' :: (d0 :: ds').map digitChar).length - 0) 0 auto _ (by simp) rfl
    (by simp)
    (by
      show isDigitChar (((d0 :: ds').map digitChar).getD 0 '\x00') = true
      rw [getD_map_digitChar (d0 :: ds') 0 (by simp)]
      exact isDigitChar_digitChar d0 (hlt d0 (by simp)))]
  have hp := precisionRun_digits (d0 :: ds') ('.' :: (d0 :: ds').map digitChar)
    1 0 (by simp) hlt (by simp; omega)
    (fun k hk => by
      rw [Nat.add_comm 1 k]
      show (((d0 :: ds').map digitChar).getD k '\x00') = _
      exact getD_map_digitChar _ k hk)
  rw [show ('.' :: (d0 :: ds').map digitChar).length - (0 + 1) =
    (d0 :: ds').length from by simp]
  rw [show ('.' :: (d0 :: ds').map digitChar).length = (d0 :: ds').length + 1
    from by simp] at hp ⊢
  rw [show (0 + 1 : Nat) = 1 from rfl, hp]
  by_cases hbig : 1000 < foldDigits 10 0 (d0 :: ds')
  · rw [if_pos hbig, if_pos hbig]
  · rw [if_neg hbig, if_neg hbig]
    exact parse_spec_loop_end _ _ _ _ _ _ _ _ _ _ (by omega)

/-- Evaluation of the indexed nested placeholder `{1}` down to the decode of
the referenced argument's formatted text (the remaining computation is the
source's round-trip through the default integer formatter and `sstoi`). -/
theorem try_parse_indexed_dyn (a b : Int) (auto : Nat) (s : format_spec)
    (isW : Bool) :
    try_parse_indexed_placeholder ['{', '1', '}'] 3 [a, b] 0 auto 2 true s isW =
      (let r2 := sstoi true 32 (format_integer_impl true 32 b {}) 10
       if r2.2.2 ≠ Errc.none then .error .invalid_value_from_argument
       else .ok (some (3, auto,
         if isW then { s with width := r2.1 } else { s with precision := r2.1 }))) := rfl

/-- Evaluation of the empty nested placeholder `{}` down to the decode of the
auto-indexed argument's formatted text. -/
theorem try_parse_empty_dyn (b : Int) (s : format_spec) (isW : Bool) :
    try_parse_empty_placeholder ['{', '}'] 2 [b] 0 0 1 s isW =
      (let r2 := sstoi true 32 (format_integer_impl true 32 b {}) 10
       if r2.2.2 ≠ Errc.none then .error .invalid_value_from_argument
       else .ok (some (2, 1,
         if isW then { s with width := r2.1 } else { s with precision := r2.1 }))) := rfl

/-- C5 (amended): literal width and precision digit runs are ceiling-checked
by `parse_format_spec_with_args` — a literal width errors exactly when it
exceeds 10000 and a literal precision exactly when it exceeds 1000 — but a
width or precision supplied dynamically through a nested `{index}` or `{}`
placeholder is stored without any ceiling check: for every in-range argument
value `b` (for instance 10001 or beyond the ceilings), the nested placeholder
parsers succeed and store exactly `b`. -/
theorem claim_C5_amended :
    (∀ (n : Nat) (args : List Int) (argc auto : Nat) (pe : Bool),
      parse_format_spec_with_args ((toDigitsM 10 n).map digitChar) 0
          ((toDigitsM 10 n).map digitChar).length args argc auto pe =
        if 10000 < n then .error .width_too_large
        else .ok ({ width := (n : Int), pattern := (toDigitsM 10 n).map digitChar }, auto)) ∧
    (∀ (n : Nat) (args : List Int) (argc auto : Nat) (pe : Bool),
      parse_format_spec_with_args ('.' :: (toDigitsM 10 n).map digitChar) 0
          ('.' :: (toDigitsM 10 n).map digitChar).length args argc auto pe =
        if 1000 < n then .error .precision_too_large
        else .ok ({ precision := (n : Int), pattern := '.' :: (toDigitsM 10 n).map digitChar }, auto)) ∧
    (∀ a b : Int, -(2 ^ 31) ≤ b → b < 2 ^ 31 →
      ∀ (auto : Nat) (s : format_spec),
        try_parse_indexed_placeholder ['{', '1', '}'] 3 [a, b] 0 auto 2 true s true =
          .ok (some (3, auto, { s with width := b })) ∧
        try_parse_indexed_placeholder ['{', '1', '}'] 3 [a, b] 0 auto 2 true s false =
          .ok (some (3, auto, { s with precision := b }))) ∧
    (∀ b : Int, -(2 ^ 31) ≤ b → b < 2 ^ 31 →
      ∀ s : format_spec,
        try_parse_empty_placeholder ['{', '}'] 2 [b] 0 0 1 s true =
          .ok (some (2, 1, { s with width := b })) ∧
        try_parse_empty_placeholder ['{', '}'] 2 [b] 0 0 1 s false =
          .ok (some (2, 1, { s with precision := b }))) := by
  refine ⟨?_, ?_, ?_, ?_⟩
  · intro n args argc auto pe
    have h := parse_digits_width (toDigitsM 10 n) (toDigitsM_ne_nil 10 n)
      (toDigitsM_lt 10 (by norm_num) n) args argc auto pe
    rw [foldDigits_toDigitsM_zero 10 n (by norm_num)] at h
    exact h
  · intro n args argc auto pe
    have h := parse_digits_precision (toDigitsM 10 n) (toDigitsM_ne_nil 10 n)
      (toDigitsM_lt 10 (by norm_num) n) args argc auto pe
    rw [foldDigits_toDigitsM_zero 10 n (by norm_num)] at h
    exact h
  · intro a b hb1 hb2 auto s
    have hdec : sstoi true 32 (format_integer_impl true 32 b {}) 10 =
        (b, (if b < 0 then 1 else 0) + (toDigitsM 10 b.natAbs).length,
          Errc.none) := by
      rw [format_integer_impl_default b hb1 hb2]
      exact sstoi_int_text b hb1 hb2
    constructor
    · rw [try_parse_indexed_dyn a b auto s true, hdec]
      simp
    · rw [try_parse_indexed_dyn a b auto s false, hdec]
      simp
  · intro b hb1 hb2 s
    have hdec : sstoi true 32 (format_integer_impl true 32 b {}) 10 =
        (b, (if b < 0 then 1 else 0) + (toDigitsM 10 b.natAbs).length,
          Errc.none) := by
      rw [format_integer_impl_default b hb1 hb2]
      exact sstoi_int_text b hb1 hb2
    constructor
    · rw [try_parse_empty_dyn b s true, hdec]
      simp
    · rw [try_parse_empty_dyn b s false, hdec]
      simp

/-- Witness for C5 at concrete inputs: the literal width 10001 and literal
precision 1001 are rejected, while the dynamically supplied width 10001 is
stored without error. -/
theorem claim_C5_witness :
    parse_format_spec_with_args ((toDigitsM 10 10001).map digitChar) 0
        ((toDigitsM 10 10001).map digitChar).length [] 0 0 true =
      .error .width_too_large ∧
    parse_format_spec_with_args ('.' :: (toDigitsM 10 1001).map digitChar) 0
        ('.' :: (toDigitsM 10 1001).map digitChar).length [] 0 0 true =
      .error .precision_too_large ∧
    try_parse_indexed_placeholder ['{', '1', '}'] 3 [0, 10001] 0 0 2 true {} true =
      .ok (some (3, 0, { width := 10001 })) := by
  refine ⟨?_, ?_, ?_⟩
  · have h := claim_C5_amended.1 10001 [] 0 0 true
    rw [if_pos (by norm_num)] at h
    exact h
  · have h := claim_C5_amended.2.1 1001 [] 0 0 true
    rw [if_pos (by norm_num)] at h
    exact h
  · exact (claim_C5_amended.2.2.1 0 10001 (by norm_num) (by norm_num) 0 {}).1

/-- C5 counterexample: a dynamic width of 10001 — above the 10000 ceiling —
supplied through the nested placeholder `{1}` is accepted by the full
formatting entry point, which happily produces a 10001-character output
instead of failing. -/
theorem claim_C5_counterexample :
    format_to ['{', '0', ':', '{', '1', '}', '}'] [7, 10001] =
      .ok (List.replicate 10000 ' ' ++ ['7']) := rfl

/-! ## C7: float decoding of the special tokens in `sstof` -/

/-- Idealized floating value produced by the float decoder: NaN, a signed
infinity, or a finite value computed in exact rational arithmetic. -/
inductive toyFloat where
  | nan : toyFloat
  | inf : Bool → toyFloat
  | fin : ℚ → toyFloat
  deriving DecidableEq

/-- The little-endian 3-byte pack `starts.v` of `sstof` after the fourth byte
is zeroed (each char contributes its low byte, as the `uint32_t` view of the
underlying byte buffer does). -/
def pack3 (c0 c1 c2 : Char) : Nat :=
  c0.toNat % 256 + 256 * (c1.toNat % 256) + 65536 * (c2.toNat % 256)

/-- The exponent search loop of `sstof`
(`while (exp_p < end) { if (*exp_p == 'e' || *exp_p == 'E') ...; ++exp_p }`):
the suffix right after the first `e`/`E`, if any. -/
def eScan : List Char → Option (List Char)
  | [] => none
  | c :: rest => if c = 'e' ∨ c = 'E' then some rest else eScan rest

/-- The numeric path of `sstof` (no special token matched), in exact rational
arithmetic: 64-bit integer-part parse with 128-bit refetch on overflow, a
fractional part of at most 17 digits, and the optional exponent.  The source
reads one byte past the span both for the `'.'` test and (after a sign on the
exponent) for the exponent digits; the model gives those reads NUL / an empty
continuation. -/
def sstof_numeric (cs rest : List Char) (sign : Int) : toyFloat × Nat × Errc :=
  let p1 := stoi_base10_u (2 ^ 64 - 1) rest
  let p := if p1.2.2 = Errc.result_out_of_range
    then stoi_base10_u (2 ^ 128 - 1) rest else p1
  let int_part_128 : Nat :=
    if p1.2.2 = Errc.result_out_of_range then p.2.1 else 0
  let int_part_64 : Nat := p1.2.1
  let v0 : ℚ := if int_part_128 ≠ 0 then (int_part_128 : ℚ) else (int_part_64 : ℚ)
  let rem1 := p.1
  let hasDot := rem1.headD '\x00' = '.'
  let afterDot := rem1.drop 1
  let fracSpan := afterDot.take 17
  let f := stoi_base10_u (2 ^ 64 - 1) fracSpan
  let fracDigits := fracSpan.length - f.1.length
  let v1 : ℚ :=
    if hasDot then v0 + (f.2.1 : ℚ) / (get_pow10 fracDigits : ℚ) else v0
  let scanStart : List Char :=
    if hasDot then afterDot.drop (fracSpan.length - f.1.length) else rem1
  let v2 : ℚ :=
    match eScan scanStart with
    | none => v1
    | some after =>
      let remaining := min after.length 17
      let se := get_sign_for_sstov after
      let ex := stoi_base10_u (2 ^ 32 - 1) (se.2.take remaining)
      if se.1 < 0 then v1 / (get_pow10 ex.2.1 : ℚ)
      else v1 * (get_pow10 ex.2.1 : ℚ)
  (.fin (v2 * (sign : ℚ)), cs.length, Errc.none)

/-- Model of `gr::toy::sstof`: optional sign, the 3-byte special-token check
against exactly `inf`/`INF`/`nan`/`NAN`, then the numeric path.  The special
branches return the position right after the token; the numeric path always
consumes the whole span with no error. -/
def sstof (cs : List Char) : toyFloat × Nat × Errc :=
  let s := get_sign_for_sstov cs
  let sign := s.1
  let rest := s.2
  let signLen := cs.length - rest.length
  if 3 ≤ rest.length then
    let pack := pack3 (rest.getD 0 '\x00') (rest.getD 1 '\x00') (rest.getD 2 '\x00')
    if pack = pack3 'i' 'n' 'f' ∨ pack = pack3 'I' 'N' 'F' then
      (.inf (decide (sign < 0)), signLen + 3, Errc.none)
    else if pack = pack3 'n' 'a' 'n' ∨ pack = pack3 'N' 'A' 'N' then
      (.nan, signLen + 3, Errc.none)
    else sstof_numeric cs rest sign
  else sstof_numeric cs rest sign

/-- Shape of `sstof` when at least three characters follow the optional
sign: the result is decided by the byte-pack comparisons against the four
exact-case special tokens, with the numeric path as fallback. -/
theorem sstof_pack_spec (cs rest : List Char) (sign : Int)
    (hs : get_sign_for_sstov cs = (sign, rest))
    (c0 c1 c2 : Char) (tl : List Char) (hr : rest = c0 :: c1 :: c2 :: tl) :
    sstof cs =
      (if pack3 c0 c1 c2 = pack3 'i' 'n' 'f' ∨ pack3 c0 c1 c2 = pack3 'I' 'N' 'F' then
        (.inf (decide (sign < 0)), (cs.length - rest.length) + 3, Errc.none)
      else if pack3 c0 c1 c2 = pack3 'n' 'a' 'n' ∨ pack3 c0 c1 c2 = pack3 'N' 'A' 'N' then
        (.nan, (cs.length - rest.length) + 3, Errc.none)
      else sstof_numeric cs rest sign) := by
  subst hr
  simp only [sstof, hs]
  rw [if_pos (show 3 ≤ (c0 :: c1 :: c2 :: tl).length by simp)]
  rfl

/-- Claim C7 counterexample: the special-token check is not case-insensitive.
The mixed casings `Inf` and `NaN` match neither byte pack, fall through to the
numeric path, and decode as the finite value 0 with the whole span consumed
and no error, instead of an infinity or a NaN. -/
theorem claim_C7_counterexample :
    sstof ['I', 'n', 'f'] = (.fin 0, 3, Errc.none) ∧
    sstof ['N', 'a', 'N'] = (.fin 0, 3, Errc.none) := by
  constructor <;>
    simp [sstof, sstof_numeric, get_sign_for_sstov, pack3, stoi_base10_u,
      stoi_base10_first, eScan, charDigitU, char_to_digit, get_pow10, POW10_TABLE]

/-- C7 (amended): the 3-byte prefix check of `sstof` recognizes exactly the
casings `inf`, `INF`, `nan` and `NAN` — with an optional sign and regardless
of what follows — returning the correspondingly signed infinity or NaN and
the position right after the token with no error.  Mixed casings such as
`Inf` or `NaN` are not recognized (see the counterexample): the check is not
case-insensitive. -/
theorem claim_C7_amended (rest : List Char) :
    sstof ('i' :: 'n' :: 'f' :: rest) = (.inf false, 3, Errc.none) ∧
    sstof ('I' :: 'N' :: 'F' :: rest) = (.inf false, 3, Errc.none) ∧
    sstof ('+' :: 'i' :: 'n' :: 'f' :: rest) = (.inf false, 4, Errc.none) ∧
    sstof ('+' :: 'I' :: 'N' :: 'F' :: rest) = (.inf false, 4, Errc.none) ∧
    sstof ('-' :: 'i' :: 'n' :: 'f' :: rest) = (.inf true, 4, Errc.none) ∧
    sstof ('-' :: 'I' :: 'N' :: 'F' :: rest) = (.inf true, 4, Errc.none) ∧
    sstof ('n' :: 'a' :: 'n' :: rest) = (.nan, 3, Errc.none) ∧
    sstof ('N' :: 'A' :: 'N' :: rest) = (.nan, 3, Errc.none) ∧
    sstof ('+' :: 'n' :: 'a' :: 'n' :: rest) = (.nan, 4, Errc.none) ∧
    sstof ('+' :: 'N' :: 'A' :: 'N' :: rest) = (.nan, 4, Errc.none) ∧
    sstof ('-' :: 'n' :: 'a' :: 'n' :: rest) = (.nan, 4, Errc.none) ∧
    sstof ('-' :: 'N' :: 'A' :: 'N' :: rest) = (.nan, 4, Errc.none) := by
  refine ⟨?_, ?_, ?_, ?_, ?_, ?_, ?_, ?_, ?_, ?_, ?_, ?_⟩
  · rw [sstof_pack_spec ('i' :: 'n' :: 'f' :: rest) ('i' :: 'n' :: 'f' :: rest) 1 rfl
      'i' 'n' 'f' rest rfl, if_pos (Or.inl rfl)]
    simp
  · rw [sstof_pack_spec ('I' :: 'N' :: 'F' :: rest) ('I' :: 'N' :: 'F' :: rest) 1 rfl
      'I' 'N' 'F' rest rfl, if_pos (Or.inr rfl)]
    simp
  · rw [sstof_pack_spec ('+' :: 'i' :: 'n' :: 'f' :: rest) ('i' :: 'n' :: 'f' :: rest) 1 rfl
      'i' 'n' 'f' rest rfl, if_pos (Or.inl rfl)]
    simp
  · rw [sstof_pack_spec ('+' :: 'I' :: 'N' :: 'F' :: rest) ('I' :: 'N' :: 'F' :: rest) 1 rfl
      'I' 'N' 'F' rest rfl, if_pos (Or.inr rfl)]
    simp
  · rw [sstof_pack_spec ('-' :: 'i' :: 'n' :: 'f' :: rest) ('i' :: 'n' :: 'f' :: rest) (-1) rfl
      'i' 'n' 'f' rest rfl, if_pos (Or.inl rfl)]
    simp
  · rw [sstof_pack_spec ('-' :: 'I' :: 'N' :: 'F' :: rest) ('I' :: 'N' :: 'F' :: rest) (-1) rfl
      'I' 'N' 'F' rest rfl, if_pos (Or.inr rfl)]
    simp
  · rw [sstof_pack_spec ('n' :: 'a' :: 'n' :: rest) ('n' :: 'a' :: 'n' :: rest) 1 rfl
      'n' 'a' 'n' rest rfl, if_neg (by decide), if_pos (Or.inl rfl)]
    simp
  · rw [sstof_pack_spec ('N' :: 'A' :: 'N' :: rest) ('N' :: 'A' :: 'N' :: rest) 1 rfl
      'N' 'A' 'N' rest rfl, if_neg (by decide), if_pos (Or.inr rfl)]
    simp
  · rw [sstof_pack_spec ('+' :: 'n' :: 'a' :: 'n' :: rest) ('n' :: 'a' :: 'n' :: rest) 1 rfl
      'n' 'a' 'n' rest rfl, if_neg (by decide), if_pos (Or.inl rfl)]
    simp
  · rw [sstof_pack_spec ('+' :: 'N' :: 'A' :: 'N' :: rest) ('N' :: 'A' :: 'N' :: rest) 1 rfl
      'N' 'A' 'N' rest rfl, if_neg (by decide), if_pos (Or.inr rfl)]
    simp
  · rw [sstof_pack_spec ('-' :: 'n' :: 'a' :: 'n' :: rest) ('n' :: 'a' :: 'n' :: rest) (-1) rfl
      'n' 'a' 'n' rest rfl, if_neg (by decide), if_pos (Or.inl rfl)]
    simp
  · rw [sstof_pack_spec ('-' :: 'N' :: 'A' :: 'N' :: rest) ('N' :: 'A' :: 'N' :: rest) (-1) rfl
      'N' 'A' 'N' rest rfl, if_neg (by decide), if_pos (Or.inr rfl)]
    simp

/-! ## C10: negative-zero normalization in `format_float` -/

/-- A floating-point argument as sign bit plus magnitude, so that `-0.0` and
`+0.0` are distinct values (we model the finite floats the claim concerns;
the magnitude is exact). -/
structure FloatVal where
  neg : Bool
  mag : ℚ
  deriving DecidableEq

/-- The numeric value of a `FloatVal` (IEEE comparisons such as
`value == 0.0` see `-0.0` and `+0.0` as equal through this). -/
def FloatVal.val (v : FloatVal) : ℚ := if v.neg then -v.mag else v.mag

/-- `toy::chars_format`. -/
inductive chars_format where
  | fixed
  | scientific
  | general
  deriving DecidableEq

/-- The slow path of `format_float` after the two fast paths: the `int64_t` cast
truncates toward zero, and the `'+'`/`' '` sign prefix the source writes
into `buffer` is immediately overwritten, since
`ftoss` writes its own output starting at `buffer[0]` and `apply_alignment`
is handed `buffer` with `ftoss`'s length — so the output is `ftoss`'s text
under `apply_alignment`.  The type switch selects precision, uppercase flag
and format exactly as the source's `switch (spec.type)` does
(`make_float_general_precision<double>() == 8`), with `spec.precision`
overriding when set. -/
def format_float_rest (ftossFn : FloatVal → chars_format → Int → Bool → Option (List Char))
    (value : FloatVal) (spec : format_spec) : List Char :=
  let trunc : Int := value.val.num / (value.val.den : Int)
  if spec.precision ≤ 0 ∧ value.val = (trunc : ℚ) then
    format_integer_impl true 64 trunc spec
  else
    let pu : Int × Bool × chars_format :=
      if spec.type = 'e' ∨ spec.type = 'E' then (6, spec.type = 'E', .scientific)
      else if spec.type = 'f' ∨ spec.type = 'F' then (8, spec.type = 'F', .fixed)
      else (8, spec.type = 'G', .general)
    let precision := if 0 ≤ spec.precision then spec.precision else pu.1
    match ftossFn value pu.2.2 precision pu.2.1 with
    | some s => apply_alignment s spec
    | none => []

/-- Model of `gr::toy::format_float`, parametric in the float-to-chars
converter `ftossFn` (the model's theorems hold for every converter, so
nothing about `ftoss` itself is assumed).  The first statement of the source
normalizes a negative zero: `if (value == 0.0) value = 0.0;` — everything
afterwards sees only the normalized value.  Then the simple fast path (plain
type, no width/precision/sign), falling through to the integer fast path and
the general path on a null fast-path result. -/
def format_float (ftossFn : FloatVal → chars_format → Int → Bool → Option (List Char))
    (value : FloatVal) (spec : format_spec) : List Char :=
  let value := if value.val = 0 then ⟨false, 0⟩ else value
  if (spec.type = '\x00' ∨ spec.type = 'g' ∨ spec.type = 'G') ∧ spec.width ≤ 0 ∧
      spec.precision < 0 ∧ spec.sign = '-' then
    match ftossFn value .general (if 0 ≤ spec.precision then spec.precision else 8) false with
    | some s => s
    | none => format_float_rest ftossFn value spec
  else format_float_rest ftossFn value spec

/-- C10: `format_float` normalizes negative zero before doing anything else,
so for every format spec — and every behaviour of the downstream
float-to-chars converter — formatting `-0.0` produces exactly the same
output as formatting `+0.0`; in particular no minus sign distinguishes the
two. -/
theorem claim_C10_negative_zero
    (ftossFn : FloatVal → chars_format → Int → Bool → Option (List Char))
    (spec : format_spec) :
    format_float ftossFn ⟨true, 0⟩ spec = format_float ftossFn ⟨false, 0⟩ spec := by
  unfold format_float
  have h1 : (FloatVal.mk true 0).val = 0 := by simp [FloatVal.val]
  have h2 : (FloatVal.mk false 0).val = 0 := by simp [FloatVal.val]
  rw [h1, h2]
  simp

end GroveTools
